import Mathlib

/-!
Verification of the AI Interview Screener backend (src/main.py).

We shallowly embed the core logic of `main.py`: the markdown fence stripper
`_strip_markdown` (including the semantics of the two `re.search` calls it and
the extractor rely on), the JSON recovery pipeline of `evaluate_with_groq`
(with `json.loads` modelled by an executable JSON parser, and Python's
`int`/`str`/dict operations modelled explicitly), and the batch ranking logic
of `rank_candidates` (Python's stable `list.sort(key=..., reverse=True)` is
modelled by a stable descending insertion sort).

Python strings are modelled as `List Char`; machine integers do not occur
(Python ints are unbounded, modelled by `Int`/`Nat`).  The external model call
is an opaque collaborator: it is passed in as a value of type
`Except (List Char) (List Char)` (provider failure or raw response text).
-/

/-! ### Character helpers -/

/-- The backtick character (avoiding a literal backtick in the source). -/
def tickChar : Char := Char.ofNat 96

/-- The double-quote character. -/
def dquote : Char := Char.ofNat 34

/-- The backslash character. -/
def bslash : Char := Char.ofNat 92

/-- Left curly brace. -/
def lbrace : Char := Char.ofNat 123

/-- Right curly brace. -/
def rbrace : Char := Char.ofNat 125

/-- Single quote. -/
def squote : Char := Char.ofNat 39

/-- Whitespace as recognised by Python's `str.strip` and `re`'s `\s`
(ASCII range: space, tab, newline, carriage return, vertical tab, form feed). -/
def wsChar (c : Char) : Bool :=
  c == ' ' || c == '\t' || c == '\n' || c == '\r' || c == Char.ofNat 11 || c == Char.ofNat 12

/-- Drop leading whitespace (left part of Python's `str.strip`). -/
def trimLeft (l : List Char) : List Char := l.dropWhile wsChar

/-- Drop trailing whitespace (right part of Python's `str.strip`). -/
def trimRight (l : List Char) : List Char := (l.reverse.dropWhile wsChar).reverse

/-- Python's `str.strip()` on our character-list model of strings. -/
def trimChars (l : List Char) : List Char := trimRight (trimLeft l)

/-- Three consecutive backticks, the markdown fence marker. -/
def ticks : List Char := [tickChar, tickChar, tickChar]

/-- `text.startswith("```")`. -/
def startsWithTicks : List Char → Bool
  | a :: b :: c :: _ => a == tickChar && b == tickChar && c == tickChar
  | _ => false

/-- `text.startswith("json")`. -/
def startsWithJson : List Char → Bool
  | 'j' :: 's' :: 'o' :: 'n' :: _ => true
  | _ => false

/-- Whether the string contains a run of three consecutive backticks. -/
def containsTicksB : List Char → Bool
  | a :: b :: c :: rest =>
    (a == tickChar && b == tickChar && c == tickChar) || containsTicksB (b :: c :: rest)
  | _ => false

/-! ### The fence regex of `_strip_markdown`

`_strip_markdown` runs `re.search(r"```(?:json)?\s*(.*?)\s*```", text, re.DOTALL)`
on a string already known to start with three backticks.  For such a string the
leftmost match (when one exists) starts at position 0, consumes the optional
`json` tag greedily, lets the first `\s*` consume greedily, and the lazy `(.*?)`
stops at the earliest point from which (after a greedy-then-backtracked `\s*`)
a closing fence follows.  `lazyScan` below captures the lazy scan: it returns
the shortest prefix of its argument such that the remainder, after a run of
whitespace, starts with three backticks. -/

/-- The lazy `(.*?)\s*` scan for the closing fence: the shortest prefix
(the regex group) such that what follows is whitespace and then three
backticks; `none` when no closing fence exists. -/
def lazyScan (l : List Char) : Option (List Char) :=
  if startsWithTicks (l.dropWhile wsChar) then some []
  else
    match l with
    | [] => none
    | c :: rest => (lazyScan rest).map (fun g => c :: g)

/-- The group captured by the fence regex when searching a text that starts
with three backticks: skip the opening fence, the optional `json` tag and the
first whitespace run, then scan for the closing fence. -/
def fenceGroup (t : List Char) : Option (List Char) :=
  let r1 := t.drop 3
  let r2 := if startsWithJson r1 then r1.drop 4 else r1
  lazyScan (r2.dropWhile wsChar)

/-- Lines 86-91 of `_strip_markdown`: when the text starts with a fence,
replace it by the stripped regex group (if the regex matched at all). -/
def stripFence (t : List Char) : List Char :=
  if startsWithTicks t then
    match fenceGroup t with
    | some g => trimChars g
    | none => t
  else t

/-- Lines 93-95 of `_strip_markdown`: drop a leading bare `json` token. -/
def stripJsonTag (t : List Char) : List Char :=
  if startsWithJson t then trimChars (t.drop 4) else t

/-- `_strip_markdown` (src/main.py lines 78-97): strip the string, extract the
content of a leading markdown code fence when present, then drop a leading bare
`json` token. -/
def strip_markdown (s : List Char) : List Char :=
  stripJsonTag (stripFence (trimChars s))

/-! ### JSON values and `json.loads`

`json.loads` is an external (standard-library) collaborator of the extractor;
we model it by an executable recursive-descent parser.  Two deliberate
simplifications, neither exercised by any behaviour the spec claims describe:
JSON numbers are modelled as integers (the service only ever consumes small
integer scores), and `\uXXXX` escapes outside the valid scalar range decode to
the default character. -/

/-- Parsed JSON values as produced by `json.loads`: Python `None`, `bool`,
`int`, `str`, `list` and `dict` (the dict keeps insertion order; duplicate
keys are resolved last-wins at lookup time, as Python does at parse time). -/
inductive JValue where
  | jnull : JValue
  | jbool : Bool → JValue
  | jnum : Int → JValue
  | jstr : List Char → JValue
  | jarr : List JValue → JValue
  | jobj : List (List Char × JValue) → JValue
deriving Repr

/-- JSON insignificant whitespace (RFC 8259: space, tab, newline, return). -/
def jsonWs (c : Char) : Bool :=
  c == ' ' || c == '\t' || c == '\n' || c == '\r'

/-- Skip JSON whitespace. -/
def skipWs (l : List Char) : List Char := l.dropWhile jsonWs

/-- Value of a hex digit. -/
def hexVal (c : Char) : Option Nat :=
  if '0' ≤ c && c ≤ '9' then some (c.toNat - 48)
  else if 'a' ≤ c && c ≤ 'f' then some (c.toNat - 87)
  else if 'A' ≤ c && c ≤ 'F' then some (c.toNat - 55)
  else none

/-- Decode a single JSON string escape character (the character after a
backslash, other than `u`). -/
def unescapeChar (e : Char) : Option Char :=
  if e == dquote then some dquote
  else if e == bslash then some bslash
  else if e == '/' then some '/'
  else if e == 'b' then some (Char.ofNat 8)
  else if e == 'f' then some (Char.ofNat 12)
  else if e == 'n' then some '\n'
  else if e == 'r' then some '\r'
  else if e == 't' then some '\t'
  else none

mutual

/-- Parse the body of a JSON string literal (after the opening quote), up to
and including the closing quote.  Returns the decoded content and the rest of
the input.  Python's strict mode rejects raw control characters. -/
def parseStringBody : List Char → Option (List Char × List Char)
  | [] => none
  | c :: cs =>
    if c = dquote then some ([], cs)
    else if c = bslash then parseEscape cs
    else if c.toNat < 32 then none
    else (parseStringBody cs).map (fun p => (c :: p.1, p.2))

/-- Parse what follows a backslash inside a JSON string literal. -/
def parseEscape : List Char → Option (List Char × List Char)
  | [] => none
  | e :: cs =>
    if e = 'u' then parseHexQuad cs
    else
      match unescapeChar e with
      | some u => (parseStringBody cs).map (fun p => (u :: p.1, p.2))
      | none => none

/-- Parse the four hex digits of a `\uXXXX` escape. -/
def parseHexQuad : List Char → Option (List Char × List Char)
  | h3 :: h2 :: h1 :: h0 :: cs =>
    match hexVal h3, hexVal h2, hexVal h1, hexVal h0 with
    | some a, some b, some c4, some d =>
      (parseStringBody cs).map
        (fun p => (Char.ofNat (((a * 16 + b) * 16 + c4) * 16 + d) :: p.1, p.2))
    | _, _, _, _ => none
  | _ => none

end

/-- Is `c` an ASCII digit? -/
def isDigitC (c : Char) : Bool := '0' ≤ c && c ≤ '9'

/-- Parse a nonempty run of digits into a natural number. -/
def parseNat (l : List Char) : Option (Nat × List Char) :=
  let ds := l.takeWhile isDigitC
  if ds.isEmpty then none
  else some (ds.foldl (fun a c => a * 10 + (c.toNat - 48)) 0, l.drop ds.length)

/-- Parse a JSON number (integers only; see the module note). -/
def parseNumber (l : List Char) : Option (JValue × List Char) :=
  match l with
  | '-' :: r => (parseNat r).map (fun p => (JValue.jnum (-(p.1 : Int)), p.2))
  | _ => (parseNat l).map (fun p => (JValue.jnum (p.1 : Int), p.2))

mutual

/-- Parse a JSON value (fuel-indexed recursive descent). -/
def parseValue : Nat → List Char → Option (JValue × List Char)
  | 0, _ => none
  | fuel + 1, l =>
    match skipWs l with
    | [] => none
    | c :: r =>
      if c = dquote then (parseStringBody r).map (fun p => (JValue.jstr p.1, p.2))
      else if c = lbrace then
        match skipWs r with
        | c2 :: r2 =>
          if c2 = rbrace then some (JValue.jobj [], r2)
          else (parseMembers fuel (c2 :: r2)).map (fun p => (JValue.jobj p.1, p.2))
        | [] => none
      else if c = '[' then
        match skipWs r with
        | c2 :: r2 =>
          if c2 = ']' then some (JValue.jarr [], r2)
          else (parseItems fuel (c2 :: r2)).map (fun p => (JValue.jarr p.1, p.2))
        | [] => none
      else if c = 't' then
        match r with
        | 'r' :: 'u' :: 'e' :: r2 => some (JValue.jbool true, r2)
        | _ => none
      else if c = 'f' then
        match r with
        | 'a' :: 'l' :: 's' :: 'e' :: r2 => some (JValue.jbool false, r2)
        | _ => none
      else if c = 'n' then
        match r with
        | 'u' :: 'l' :: 'l' :: r2 => some (JValue.jnull, r2)
        | _ => none
      else if c = '-' || isDigitC c then parseNumber (c :: r)
      else none

/-- Parse the members of a JSON object (positioned at the first key's quote);
consumes the closing brace. -/
def parseMembers : Nat → List Char → Option (List (List Char × JValue) × List Char)
  | 0, _ => none
  | fuel + 1, l =>
    match l with
    | c :: r =>
      if c = dquote then
        match parseStringBody r with
        | some (key, r2) =>
          (match skipWs r2 with
           | c2 :: r3 =>
             if c2 = ':' then
               match parseValue fuel r3 with
               | some (v, r4) =>
                 (match skipWs r4 with
                  | c3 :: r5 =>
                    if c3 = ',' then
                      (parseMembers fuel (skipWs r5)).map
                        (fun p => ((key, v) :: p.1, p.2))
                    else if c3 = rbrace then some ([(key, v)], r5)
                    else none
                  | [] => none)
               | none => none
             else none
           | [] => none)
        | none => none
      else none
    | [] => none

/-- Parse the items of a JSON array (positioned at the first item); consumes
the closing bracket. -/
def parseItems : Nat → List Char → Option (List JValue × List Char)
  | 0, _ => none
  | fuel + 1, l =>
    match parseValue fuel l with
    | some (v, r) =>
      (match skipWs r with
       | c :: r2 =>
         if c = ',' then (parseItems fuel (skipWs r2)).map (fun p => (v :: p.1, p.2))
         else if c = ']' then some ([v], r2)
         else none
       | [] => none)
    | none => none

end

/-- `json.loads`: parse a complete JSON document, requiring only whitespace
after the value.  `none` models a `json.JSONDecodeError`. -/
def jsonLoads (l : List Char) : Option JValue :=
  match parseValue (l.length + 1) l with
  | some (v, rest) => if (skipWs rest).isEmpty then some v else none
  | none => none

/-- The fallback regex `re.search(r'\{[\s\S]*\}', cleaned)` of the extractor:
the leftmost-greedy match runs from the first left brace to the last right
brace that follows it. -/
def braceSpan (l : List Char) : Option (List Char) :=
  match l.findIdx? (fun c => c == lbrace) with
  | none => none
  | some p =>
    match (l.reverse.findIdx? (fun c => c == rbrace)).map (fun j => l.length - 1 - j) with
    | none => none
    | some q => if p < q then some ((l.take (q + 1)).drop p) else none

/-! ### Python value/exception semantics used by the extractor -/

/-- The messages carried by the `ValueError`s that `evaluate_with_groq` can
raise or encounter.  The code builds them with f-strings; we keep them
structured so that theorems can speak about their content. -/
inductive PyMsg where
  | couldNotParse : List Char → PyMsg
  | missingFields : JValue → PyMsg
  | intCoerceFailed : List Char → PyMsg
  | pydanticOutOfRange : Int → PyMsg
deriving Repr

/-- The Python exceptions that can escape the body of the `try` block in
`evaluate_with_groq` (lines 137-181): `json.JSONDecodeError` (carrying the
cleaned text the handler truncates for its message), `ValueError` (including
pydantic's `ValidationError`, which subclasses it), `TypeError` and
`KeyError`. -/
inductive PyExc where
  | jsonDecode : List Char → PyExc
  | valueErr : PyMsg → PyExc
  | typeErr : List Char → PyExc
  | keyErr : List Char → PyExc
deriving Repr

mutual

/-- Approximation of Python's `repr` on parsed JSON values, used only to build
diagnostic message strings (string-escaping inside `repr` is not modelled). -/
def pyRepr : JValue → List Char
  | JValue.jnull => "None".toList
  | JValue.jbool true => "True".toList
  | JValue.jbool false => "False".toList
  | JValue.jnum n => (toString n).toList
  | JValue.jstr s => squote :: (s ++ [squote])
  | JValue.jarr items => '[' :: (pyReprItems items ++ [']'])
  | JValue.jobj fields => lbrace :: (pyReprFields fields ++ [rbrace])

/-- `repr` of list elements, comma separated. -/
def pyReprItems : List JValue → List Char
  | [] => []
  | [v] => pyRepr v
  | v :: vs => pyRepr v ++ (", ".toList ++ pyReprItems vs)

/-- `repr` of dict entries, comma separated. -/
def pyReprFields : List (List Char × JValue) → List Char
  | [] => []
  | [(k, v)] => (squote :: (k ++ [squote])) ++ (": ".toList ++ pyRepr v)
  | (k, v) :: fs =>
    (squote :: (k ++ [squote])) ++ (": ".toList ++ pyRepr v) ++ (", ".toList ++ pyReprFields fs)

end

/-- Dictionary lookup.  `json.loads` builds the dict in key order with later
duplicate keys overwriting earlier ones, so lookup finds the last binding. -/
def jlookup (fields : List (List Char × JValue)) (k : List Char) : Option JValue :=
  (fields.reverse.find? (fun p => p.1 == k)).map (fun p => p.2)

/-- Python's `key in value` for a parsed JSON value: dict key membership,
list membership (a string only equals a string), substring test on strings,
`TypeError` on non-containers. -/
def pyContains (v : JValue) (k : List Char) : Except PyExc Bool :=
  match v with
  | JValue.jobj fields => Except.ok (jlookup fields k).isSome
  | JValue.jarr items =>
    Except.ok (items.any (fun x => match x with
      | JValue.jstr s => s == k
      | _ => false))
  | JValue.jstr s => Except.ok (occursSub k s)
  | _ => Except.error (PyExc.typeErr "argument of type is not iterable".toList)
where
  /-- Substring occurrence test (Python's `in` on strings). -/
  occursSub (pat : List Char) : List Char → Bool
    | [] => pat.isEmpty
    | l@(_ :: rest) => pat.isPrefixOf l || occursSub pat rest

/-- Python's `value[k]` on a parsed JSON value with a string key. -/
def pySubscript (v : JValue) (k : List Char) : Except PyExc JValue :=
  match v with
  | JValue.jobj fields =>
    match jlookup fields k with
    | some x => Except.ok x
    | none => Except.error (PyExc.keyErr k)
  | JValue.jstr _ => Except.error (PyExc.typeErr "string indices must be integers".toList)
  | JValue.jarr _ => Except.error (PyExc.typeErr "list indices must be integers".toList)
  | _ => Except.error (PyExc.typeErr "object is not subscriptable".toList)

/-- Python's `int()` on a string: strip whitespace, optional sign, a nonempty
run of digits (numeric-literal underscores are not modelled; no claim-relevant
input contains them).  `none` models the `ValueError` raised otherwise. -/
def pyIntStr (s : List Char) : Option Int :=
  let t := trimChars s
  match t with
  | '+' :: ds => (digitsVal ds).map (fun n => (n : Int))
  | '-' :: ds => (digitsVal ds).map (fun n => -(n : Int))
  | ds => (digitsVal ds).map (fun n => (n : Int))
where
  /-- Value of a nonempty all-digit string. -/
  digitsVal (ds : List Char) : Option Nat :=
    if ds.isEmpty || !(ds.all isDigitC) then none
    else some (ds.foldl (fun a c => a * 10 + (c.toNat - 48)) 0)

/-- Python's `int()` on a parsed JSON value: ints pass through, bools coerce,
numeric strings parse (`ValueError` otherwise), and `None`/lists/dicts raise
`TypeError`. -/
def pyInt (v : JValue) : Except PyExc Int :=
  match v with
  | JValue.jnum n => Except.ok n
  | JValue.jbool b => Except.ok (if b then 1 else 0)
  | JValue.jstr s =>
    match pyIntStr s with
    | some n => Except.ok n
    | none => Except.error (PyExc.valueErr (PyMsg.intCoerceFailed s))
  | _ =>
    Except.error
      (PyExc.typeErr "int() argument must be a string, a bytes-like object or a real number".toList)

/-- Python's `str()` on a parsed JSON value (strings pass through; other
values stringify via `repr`-like text, never reached on claim-relevant runs). -/
def pyStr (v : JValue) : List Char :=
  match v with
  | JValue.jstr s => s
  | JValue.jnull => "None".toList
  | JValue.jbool true => "True".toList
  | JValue.jbool false => "False".toList
  | JValue.jnum n => (toString n).toList
  | v => pyRepr v

/-! ### Application data model (the pydantic models of src/main.py) -/

/-- `AnswerRequest` (lines 46-51). -/
structure AnswerRequest where
  candidate_says : List Char
  question_context : List Char
deriving Repr, DecidableEq

/-- `EvaluationResponse` (lines 53-56).  pydantic enforces
`score: int = Field(..., ge=1, le=5)` at construction, so every value of this
type carries the bounds; `summary` and `improvement` are unconstrained
strings. -/
structure EvaluationResponse where
  score : Int
  summary : List Char
  improvement : List Char
  score_ge : 1 ≤ score
  score_le : score ≤ 5

/-- `CandidateAnswer` (lines 58-61). -/
structure CandidateAnswer where
  candidate_id : List Char
  answer : List Char
  question_context : List Char
deriving Repr, DecidableEq

/-- `RankRequest` (lines 63-64). -/
structure RankRequest where
  candidates : List CandidateAnswer
deriving Repr, DecidableEq

/-- `RankedCandidate` (lines 66-72); no field constraints. -/
structure RankedCandidate where
  candidate_id : List Char
  answer : List Char
  score : Int
  summary : List Char
  improvement : List Char
  rank : Nat
deriving Repr, DecidableEq

/-- `RankResponse` (lines 74-75). -/
structure RankResponse where
  ranked_candidates : List RankedCandidate
deriving Repr, DecidableEq

/-- The intermediate per-candidate dicts collected by `rank_candidates`
(lines 256-271). -/
structure EvaluatedEntry where
  candidate_id : List Char
  answer : List Char
  score : Int
  summary : List Char
  improvement : List Char
deriving Repr, DecidableEq

/-! ### HTTP-level failures -/

/-- The `detail` payloads of the `HTTPException`s raised in src/main.py, kept
structured (the code renders them as f-strings). -/
inductive Detail where
  | groqUnavailable : List Char → Detail
  | parseFail : List Char → Detail
  | valueMsg : PyMsg → Detail
  | groqApi : List Char → Detail
  | emptyAnswer : Detail
  | emptyCandidates : Detail
deriving Repr

/-- `fastapi.HTTPException`: a status code and a detail payload. -/
structure HTTPExc where
  status : Nat
  detail : Detail
deriving Repr

/-- The outer exception handlers of `evaluate_with_groq` (lines 183-191):
`json.JSONDecodeError` → parse-failure detail with the cleaned text truncated
to 300 characters; `ValueError` → its message; anything else → a generic
"Groq API error" detail. -/
def httpOfExc (e : PyExc) : HTTPExc :=
  match e with
  | PyExc.jsonDecode cleaned => ⟨500, Detail.parseFail (cleaned.take 300)⟩
  | PyExc.valueErr m => ⟨500, Detail.valueMsg m⟩
  | PyExc.typeErr m => ⟨500, Detail.groqApi m⟩
  | PyExc.keyErr k => ⟨500, Detail.groqApi k⟩

/-- Message text of a `ValueError`, as `str(ve)` renders it (line 189). -/
def strOfMsg (m : PyMsg) : List Char :=
  match m with
  | PyMsg.couldNotParse ex => "Could not parse JSON from response: ".toList ++ ex
  | PyMsg.missingFields r => "Missing required fields in response: ".toList ++ pyRepr r
  | PyMsg.intCoerceFailed s =>
    "invalid literal for int() with base 10: ".toList ++ (squote :: (s ++ [squote]))
  | PyMsg.pydanticOutOfRange n =>
    "1 validation error for EvaluationResponse score ".toList ++ (toString n).toList

/-- Rendered `detail` text of an `HTTPException` from src/main.py. -/
def strOfDetail (d : Detail) : List Char :=
  match d with
  | Detail.groqUnavailable m => "Groq SDK not available: ".toList ++ m
  | Detail.parseFail ex => "Failed to parse JSON from model. Raw response: ".toList ++ ex
  | Detail.valueMsg m => strOfMsg m
  | Detail.groqApi m => "Groq API error: ".toList ++ m
  | Detail.emptyAnswer => "Candidate answer cannot be empty".toList
  | Detail.emptyCandidates => "Candidates list cannot be empty".toList

/-- `str(e)` on an `HTTPException` ("status: detail"), as interpolated into
the placeholder summary by `rank_candidates` (line 269). -/
def strOfHTTPExc (e : HTTPExc) : List Char :=
  (toString e.status).toList ++ (": ".toList ++ strOfDetail e.detail)

/-! ### The evaluation pipeline (`evaluate_with_groq`, lines 100-191) -/

/-- `context_prompt` (line 114): empty unless a question context is given. -/
def context_prompt (question_context : List Char) : List Char :=
  if question_context.isEmpty then []
  else "\nInterview Question: ".toList ++ (question_context ++ "\n".toList)

/-- The instruction prompt built at lines 116-135 (a pure function of the
answer and the optional question context). -/
def build_prompt (answer question_context : List Char) : List Char :=
  "You are an expert technical interviewer evaluating candidate responses.\n\n".toList
  ++ context_prompt question_context
  ++ "\nCandidate's Answer: ".toList ++ answer
  ++ "\n\nEvaluate this answer and respond with ONLY a valid JSON object (no markdown, no explanation, no code fences):\n\x7b\n  \"score\": <integer 1-5>,\n  \"summary\": \"<one concise sentence summarizing the answer>\",\n  \"improvement\": \"<one specific, actionable suggestion for improvement>\"\n\x7d\n\nScoring Guide:\n- 1: Poor - Incorrect, irrelevant, or demonstrates lack of understanding\n- 2: Below Average - Partially correct but significant gaps in knowledge\n- 3: Average - Correct but lacks depth or misses key points\n- 4: Good - Solid answer with good understanding and detail\n- 5: Excellent - Comprehensive, insightful, demonstrates deep expertise\n\nBe concise but constructive. Return ONLY the JSON object.".toList

/-- The three required keys. -/
def keyScore : List Char := "score".toList

/-- The `summary` key. -/
def keySummary : List Char := "summary".toList

/-- The `improvement` key. -/
def keyImprovement : List Char := "improvement".toList

/-- Lines 157-160: strip the response text, then strip markdown artifacts. -/
def cleanedOf (raw : List Char) : List Char := strip_markdown (trimChars raw)

/-- Lines 162-171: parse the cleaned text as JSON; on failure, retry on the
brace-to-brace span; if the fallback also fails to parse the propagating
exception is the `JSONDecodeError`, and if there is no span it is a
`ValueError` with a 200-character excerpt. -/
def parseStage (cleaned : List Char) : Except PyExc JValue :=
  match jsonLoads cleaned with
  | some r => Except.ok r
  | none =>
    match braceSpan cleaned with
    | some span =>
      match jsonLoads span with
      | some r => Except.ok r
      | none => Except.error (PyExc.jsonDecode cleaned)
    | none => Except.error (PyExc.valueErr (PyMsg.couldNotParse (cleaned.take 200)))

/-- Lines 174-175: `if "score" not in result or "summary" not in result or
"improvement" not in result: raise ValueError(...)`, with Python's
short-circuit evaluation order. -/
def checkFields (result : JValue) : Except PyExc Unit := do
  let b1 ← pyContains result keyScore
  if !b1 then throw (PyExc.valueErr (PyMsg.missingFields result))
  else do
    let b2 ← pyContains result keySummary
    if !b2 then throw (PyExc.valueErr (PyMsg.missingFields result))
    else do
      let b3 ← pyContains result keyImprovement
      if !b3 then throw (PyExc.valueErr (PyMsg.missingFields result))
      else pure ()

/-- Construction of `EvaluationResponse` (lines 177-181): pydantic validates
`ge=1, le=5` on `score` and raises a `ValidationError` (a `ValueError`
subclass) otherwise. -/
def mkEvaluationResponse (score : Int) (summary improvement : List Char) :
    Except PyExc EvaluationResponse :=
  if h : 1 ≤ score ∧ score ≤ 5 then
    Except.ok ⟨score, summary, improvement, h.1, h.2⟩
  else Except.error (PyExc.valueErr (PyMsg.pydanticOutOfRange score))

/-- The body of the `try` block of `evaluate_with_groq` after the model call
(lines 157-181): clean, parse, validate keys, coerce fields, construct the
response. -/
def extractEval (raw : List Char) : Except PyExc EvaluationResponse := do
  let cleaned := cleanedOf raw
  let result ← parseStage cleaned
  checkFields result
  let sv ← pySubscript result keyScore
  let n ← pyInt sv
  let sumv ← pySubscript result keySummary
  let impv ← pySubscript result keyImprovement
  mkEvaluationResponse n (pyStr sumv) (pyStr impv)

/-- `evaluate_with_groq` (lines 100-191).  The external model call is the
opaque `modelCall` argument (provider failure or raw text); `avail` and
`importErr` model the module-level `_GROQ_AVAILABLE` / `_GROQ_IMPORT_ERROR`
state.  The second component instruments the call site: it counts how many
times the external model was invoked (0 or 1), which makes the
"no model call is attempted" claims expressible in a pure embedding. -/
def evaluate_with_groq (avail : Bool) (importErr : List Char)
    (modelCall : Except (List Char) (List Char)) (answer question_context : List Char) :
    Except HTTPExc EvaluationResponse × Nat :=
  if !avail then (Except.error ⟨500, Detail.groqUnavailable importErr⟩, 0)
  else
    let _prompt := build_prompt answer question_context
    match modelCall with
    | Except.error e => (Except.error ⟨500, Detail.groqApi e⟩, 1)
    | Except.ok raw =>
      match extractEval raw with
      | Except.ok ev => (Except.ok ev, 1)
      | Except.error exc => (Except.error (httpOfExc exc), 1)

/-- `POST /evaluate-answer` (lines 210-224): reject an answer that is empty
after stripping with a 400 before anything else happens. -/
def evaluate_answer (avail : Bool) (importErr : List Char)
    (modelCall : Except (List Char) (List Char)) (req : AnswerRequest) :
    Except HTTPExc EvaluationResponse × Nat :=
  if (trimChars req.candidate_says).isEmpty then
    (Except.error ⟨400, Detail.emptyAnswer⟩, 0)
  else evaluate_with_groq avail importErr modelCall req.candidate_says req.question_context

/-! ### Batch ranking (`rank_candidates`, lines 227-288) -/

/-- The fixed prefix of a placeholder summary (line 269). -/
def evalFailedPrefix : List Char := "Evaluation failed: ".toList

/-- The fixed retry-suggestion improvement of a placeholder (line 270). -/
def retryMsg : List Char := "Please retry evaluation".toList

/-- One iteration of the loop at lines 253-271: evaluate a candidate and
record either the evaluation or, if any exception was raised, a placeholder
with score 0.  `modelCallOf` supplies the external model's behaviour for each
candidate. -/
def evaluateCandidate (avail : Bool) (importErr : List Char)
    (modelCallOf : CandidateAnswer → Except (List Char) (List Char))
    (c : CandidateAnswer) : EvaluatedEntry :=
  match (evaluate_with_groq avail importErr (modelCallOf c) c.answer c.question_context).1 with
  | Except.ok ev => ⟨c.candidate_id, c.answer, ev.score, ev.summary, ev.improvement⟩
  | Except.error e =>
    ⟨c.candidate_id, c.answer, 0, evalFailedPrefix ++ strOfHTTPExc e, retryMsg⟩

/-- Stable descending insertion: place `x` after every earlier element whose
score is strictly greater, and before the first element whose score is at most
`x`'s (so elements arriving later sit after equal-score elements already
placed). -/
def insertByScoreDesc (x : EvaluatedEntry) : List EvaluatedEntry → List EvaluatedEntry
  | [] => [x]
  | y :: ys => if x.score < y.score then y :: insertByScoreDesc x ys else x :: y :: ys

/-- Line 274: `evaluated_candidates.sort(key=lambda x: x["score"], reverse=True)`.
CPython's sort is stable, and stability is preserved under `reverse=True`, so
the sort is exactly: order by score descending, ties keeping input order —
which this insertion sort computes. -/
def sortByScoreDesc : List EvaluatedEntry → List EvaluatedEntry
  | [] => []
  | x :: xs => insertByScoreDesc x (sortByScoreDesc xs)

/-- Line 279: build a `RankedCandidate` from an evaluated entry and a rank. -/
def mkRanked (e : EvaluatedEntry) (k : Nat) : RankedCandidate :=
  ⟨e.candidate_id, e.answer, e.score, e.summary, e.improvement, k⟩

/-- Lines 277-286: `for idx, candidate in enumerate(evaluated_candidates, 1)` —
attach 1-based ranks in list order. -/
def addRanksFrom : Nat → List EvaluatedEntry → List RankedCandidate
  | _, [] => []
  | k, e :: es => mkRanked e k :: addRanksFrom (k + 1) es

/-- The ranking component applied after the boundary check: sort the evaluated
entries by score descending (stable) and attach dense 1-based ranks. -/
def rank_core (entries : List EvaluatedEntry) : List RankedCandidate :=
  addRanksFrom 1 (sortByScoreDesc entries)

/-- `POST /rank-candidates` (lines 227-288): reject an empty candidate list
with a 400; otherwise evaluate every candidate (isolating per-candidate
failures as placeholders), sort by score descending and rank. -/
def rank_candidates (avail : Bool) (importErr : List Char)
    (modelCallOf : CandidateAnswer → Except (List Char) (List Char))
    (req : RankRequest) : Except HTTPExc RankResponse :=
  if req.candidates.isEmpty then Except.error ⟨400, Detail.emptyCandidates⟩
  else
    Except.ok ⟨rank_core (req.candidates.map (evaluateCandidate avail importErr modelCallOf))⟩

/-! ### Rendering JSON (to state what "the raw response embeds a well-formed
JSON object" means in the extraction claims) -/

/-- Lower-case hex digit of a value below 16. -/
def hexChar (d : Nat) : Char :=
  if d < 10 then Char.ofNat (48 + d) else Char.ofNat (87 + d)

/-- JSON string escaping of one character: the two-character escapes for
quote, backslash and the named control characters, `\u00XX` for the remaining
control characters, everything else literal. -/
def escChar (c : Char) : List Char :=
  if c = dquote then [bslash, dquote]
  else if c = bslash then [bslash, bslash]
  else if c = '\n' then [bslash, 'n']
  else if c = '\t' then [bslash, 't']
  else if c = '\r' then [bslash, 'r']
  else if c = Char.ofNat 8 then [bslash, 'b']
  else if c = Char.ofNat 12 then [bslash, 'f']
  else if c.toNat < 32 then
    [bslash, 'u', '0', '0', hexChar (c.toNat / 16), hexChar (c.toNat % 16)]
  else [c]

/-- JSON string escaping of a whole string. -/
def escString : List Char → List Char
  | [] => []
  | c :: cs => escChar c ++ escString cs

/-- A well-formed JSON rendering of the object
`{"score": k, "summary": s, "improvement": i}` (no insignificant whitespace). -/
def renderEval (k : Int) (s i : List Char) : List Char :=
  "\x7b\"score\":".toList ++ ((toString k).toList
    ++ (",\"summary\":\"".toList ++ (escString s
    ++ ("\",\"improvement\":\"".toList ++ (escString i
    ++ "\"\x7d".toList)))))

/-- The canonical character-level form of `renderEval` with a single score
digit `d` (definitionally equal to `renderEval k s i` when `toString k`
is the single digit `d`). -/
def evalText (d : Char) (s i : List Char) : List Char :=
  lbrace :: dquote :: 's' :: 'c' :: 'o' :: 'r' :: 'e' :: dquote :: ':' :: d :: ',' ::
    dquote :: 's' :: 'u' :: 'm' :: 'm' :: 'a' :: 'r' :: 'y' :: dquote :: ':' :: dquote ::
    (escString s ++ (dquote :: ',' :: dquote :: 'i' :: 'm' :: 'p' :: 'r' :: 'o' :: 'v' ::
      'e' :: 'm' :: 'e' :: 'n' :: 't' :: dquote :: ':' :: dquote ::
      (escString i ++ (dquote :: rbrace :: []))))

/-- The parsed object `renderEval` denotes. -/
def evalObj (k : Int) (s i : List Char) : JValue :=
  JValue.jobj [(keyScore, JValue.jnum k), (keySummary, JValue.jstr s),
    (keyImprovement, JValue.jstr i)]

/-- Wrap a text in markdown code fences with a `json` language tag. -/
def fencedJson (t : List Char) : List Char :=
  ticks ++ ("json".toList ++ ('\n' :: (t ++ ('\n' :: ticks))))

/-- Wrap a text in plain markdown code fences. -/
def fencedPlain (t : List Char) : List Char :=
  ticks ++ ('\n' :: (t ++ ('\n' :: ticks)))

/-- Precede a text by a bare leading `json` token. -/
def jsonTagged (t : List Char) : List Char := "json ".toList ++ t

/-- Whether an object carries all three required keys. -/
def hasAllRequired (fields : List (List Char × JValue)) : Bool :=
  (jlookup fields keyScore).isSome && (jlookup fields keySummary).isSome
    && (jlookup fields keyImprovement).isSome

/-! ### Concrete batch used to exhibit the documented ranking example
(scores [2, 5, 5, 1] in input order) -/

/-- A syntactically valid model response carrying a given score. -/
def exScoreJson (n : Nat) : List Char :=
  "\x7b\"score\": ".toList ++ (toString n).toList
    ++ ", \"summary\": \"s\", \"improvement\": \"i\"\x7d".toList

/-- Four candidates A, B, C, D in input order. -/
def exCandidates : List CandidateAnswer :=
  [⟨"A".toList, "a1".toList, []⟩, ⟨"B".toList, "a2".toList, []⟩,
   ⟨"C".toList, "a3".toList, []⟩, ⟨"D".toList, "a4".toList, []⟩]

/-- A model behaviour that scores A, B, C, D as 2, 5, 5, 1 respectively. -/
def exMc (c : CandidateAnswer) : Except (List Char) (List Char) :=
  Except.ok
    (if c.candidate_id = "A".toList then exScoreJson 2
     else if c.candidate_id = "B".toList then exScoreJson 5
     else if c.candidate_id = "C".toList then exScoreJson 5
     else exScoreJson 1)

/-! ### Concrete inputs used by witnesses -/

/-- A candidate whose evaluation will fail (used by witnesses). -/
def wFail : CandidateAnswer := ⟨"F".toList, "fa".toList, []⟩

/-- A candidate whose evaluation will succeed (used by witnesses). -/
def wOk : CandidateAnswer := ⟨"S".toList, "sa".toList, []⟩

/-- A model behaviour failing on `wFail` and scoring 4 otherwise. -/
def wMc (c : CandidateAnswer) : Except (List Char) (List Char) :=
  if c.candidate_id = "F".toList then Except.error "boom".toList
  else Except.ok (exScoreJson 4)

/-! ## Lemmas -/

/-! ### Stripping -/

theorem dropWhile_idem (p : Char → Bool) (l : List Char) :
    (l.dropWhile p).dropWhile p = l.dropWhile p := by
  induction l with
  | nil => rfl
  | cons c r ih =>
    by_cases h : p c = true
    · simp [List.dropWhile_cons, h, ih]
    · simp [List.dropWhile_cons, h]

theorem trimLeft_idem (l : List Char) : trimLeft (trimLeft l) = trimLeft l :=
  dropWhile_idem wsChar l

theorem trimRight_idem (l : List Char) : trimRight (trimRight l) = trimRight l := by
  unfold trimRight
  rw [List.reverse_reverse, dropWhile_idem]

theorem trimLeft_cons_of_nonws {c : Char} (l : List Char) (h : wsChar c = false) :
    trimLeft (c :: l) = c :: l := by
  simp [trimLeft, List.dropWhile_cons, h]

theorem trimLeft_trimRight {l : List Char} (h : trimLeft l = l) :
    trimLeft (trimRight l) = trimRight l := by
  cases l with
  | nil => rfl
  | cons c r =>
    have hc : wsChar c = false := by
      have := List.dropWhile_eq_self_iff.mp h (by simp)
      simpa using this
    unfold trimRight
    rw [List.reverse_cons, List.dropWhile_append]
    by_cases he : (List.dropWhile wsChar r.reverse).isEmpty = true
    · rw [if_pos he]
      simp only [List.dropWhile_cons, hc, cond_false, if_neg, Bool.false_eq_true,
        List.dropWhile_nil]
      simp [trimLeft, List.dropWhile_cons, hc]
    · rw [if_neg he]
      rw [List.reverse_append]
      simp only [List.reverse_cons, List.reverse_nil, List.nil_append, List.singleton_append]
      exact trimLeft_cons_of_nonws _ hc

theorem trimChars_idem (l : List Char) : trimChars (trimChars l) = trimChars l := by
  unfold trimChars
  rw [trimLeft_trimRight (trimLeft_idem l), trimRight_idem]

theorem trimRight_append_of_nonws {b : Char} (l : List Char) (h : wsChar b = false) :
    trimRight (l ++ [b]) = l ++ [b] := by
  unfold trimRight
  rw [List.reverse_append]
  simp [List.dropWhile_cons, h]

theorem trimChars_of_nonws_ends {a b : Char} (l : List Char)
    (ha : wsChar a = false) (hb : wsChar b = false) :
    trimChars (a :: (l ++ [b])) = a :: (l ++ [b]) := by
  unfold trimChars
  rw [trimLeft_cons_of_nonws _ ha]
  have h2 : a :: (l ++ [b]) = (a :: l) ++ [b] := by simp
  rw [h2, trimRight_append_of_nonws _ hb]

theorem trimChars_stripFence {t : List Char} (h : trimChars t = t) :
    trimChars (stripFence t) = stripFence t := by
  unfold stripFence
  split
  · split
    · exact trimChars_idem _
    · exact h
  · exact h

theorem trimChars_stripJsonTag {t : List Char} (h : trimChars t = t) :
    trimChars (stripJsonTag t) = stripJsonTag t := by
  unfold stripJsonTag
  split
  · exact trimChars_idem _
  · exact h

/-- `_strip_markdown` always returns a stripped string. -/
theorem trimChars_strip_markdown (s : List Char) :
    trimChars (strip_markdown s) = strip_markdown s := by
  unfold strip_markdown
  exact trimChars_stripJsonTag (trimChars_stripFence (trimChars_idem s))

/-! ### Sorting and ranking -/

theorem insertByScoreDesc_perm (x : EvaluatedEntry) (l : List EvaluatedEntry) :
    (insertByScoreDesc x l).Perm (x :: l) := by
  induction l with
  | nil => exact List.Perm.refl _
  | cons y ys ih =>
    unfold insertByScoreDesc
    split
    · exact ((ih.cons y).trans (List.Perm.swap x y ys))
    · exact List.Perm.refl _

theorem sortByScoreDesc_perm (l : List EvaluatedEntry) :
    (sortByScoreDesc l).Perm l := by
  induction l with
  | nil => exact List.Perm.refl _
  | cons x xs ih =>
    exact (insertByScoreDesc_perm x (sortByScoreDesc xs)).trans (ih.cons x)

theorem mem_insertByScoreDesc {y x : EvaluatedEntry} {l : List EvaluatedEntry} :
    y ∈ insertByScoreDesc x l ↔ y = x ∨ y ∈ l := by
  rw [(insertByScoreDesc_perm x l).mem_iff]
  simp

theorem pairwise_insertByScoreDesc {x : EvaluatedEntry} {l : List EvaluatedEntry}
    (h : l.Pairwise (fun a b => b.score ≤ a.score)) :
    (insertByScoreDesc x l).Pairwise (fun a b => b.score ≤ a.score) := by
  induction l with
  | nil => simp [insertByScoreDesc]
  | cons y ys ih =>
    rw [List.pairwise_cons] at h
    unfold insertByScoreDesc
    split
    · rename_i hlt
      rw [List.pairwise_cons]
      constructor
      · intro z hz
        rcases mem_insertByScoreDesc.mp hz with hzx | hzys
        · exact hzx ▸ le_of_lt hlt
        · exact h.1 z hzys
      · exact ih h.2
    · rename_i hge
      push_neg at hge
      rw [List.pairwise_cons]
      constructor
      · intro z hz
        rcases List.mem_cons.mp hz with hzy | hzys
        · exact hzy ▸ hge
        · exact le_trans (h.1 z hzys) hge
      · exact List.pairwise_cons.mpr h

theorem sortByScoreDesc_pairwise (l : List EvaluatedEntry) :
    (sortByScoreDesc l).Pairwise (fun a b => b.score ≤ a.score) := by
  induction l with
  | nil => simp [sortByScoreDesc]
  | cons x xs ih => exact pairwise_insertByScoreDesc ih

theorem filter_insertByScoreDesc_same (x : EvaluatedEntry) (l : List EvaluatedEntry) :
    (insertByScoreDesc x l).filter (fun e => e.score == x.score)
      = x :: l.filter (fun e => e.score == x.score) := by
  induction l with
  | nil => simp [insertByScoreDesc]
  | cons y ys ih =>
    unfold insertByScoreDesc
    split
    · rename_i hlt
      have hne : (y.score == x.score) = false := by
        simp only [beq_eq_false_iff_ne, ne_eq]
        omega
      simp only [List.filter_cons, hne, cond_false, ih, Bool.false_eq_true, if_neg]
      simp [List.filter_cons, hne]
    · simp [List.filter_cons]

theorem filter_insertByScoreDesc_other {sc : Int} (x : EvaluatedEntry)
    (l : List EvaluatedEntry) (h : sc ≠ x.score) :
    (insertByScoreDesc x l).filter (fun e => e.score == sc)
      = l.filter (fun e => e.score == sc) := by
  have hxne : (x.score == sc) = false := by
    simp only [beq_eq_false_iff_ne, ne_eq]
    omega
  induction l with
  | nil => simp [insertByScoreDesc, hxne]
  | cons y ys ih =>
    unfold insertByScoreDesc
    split
    · simp [List.filter_cons, ih]
    · simp [List.filter_cons, hxne]

/-- Stability of the modelled sort, stated per score class: for every score,
the elements holding that score appear in the sorted output exactly in their
input order. -/
theorem filter_sortByScoreDesc (l : List EvaluatedEntry) (sc : Int) :
    (sortByScoreDesc l).filter (fun e => e.score == sc)
      = l.filter (fun e => e.score == sc) := by
  induction l with
  | nil => rfl
  | cons x xs ih =>
    unfold sortByScoreDesc
    by_cases hsc : sc = x.score
    · subst hsc
      rw [filter_insertByScoreDesc_same, ih]
      simp [List.filter_cons]
    · rw [filter_insertByScoreDesc_other _ _ hsc, ih]
      have hxne : (x.score == sc) = false := by
        simp only [beq_eq_false_iff_ne, ne_eq]
        omega
      simp [List.filter_cons, hxne]

theorem length_addRanksFrom (k : Nat) (l : List EvaluatedEntry) :
    (addRanksFrom k l).length = l.length := by
  induction l generalizing k with
  | nil => rfl
  | cons e es ih => simp [addRanksFrom, ih]

theorem map_rank_addRanksFrom (k : Nat) (l : List EvaluatedEntry) :
    (addRanksFrom k l).map (fun r => r.rank) = List.range' k l.length := by
  induction l generalizing k with
  | nil => rfl
  | cons e es ih => simp [addRanksFrom, List.range', ih, mkRanked]

theorem mem_addRanksFrom_of_mem {e : EvaluatedEntry} {l : List EvaluatedEntry}
    (h : e ∈ l) (k : Nat) : ∃ rk, mkRanked e rk ∈ addRanksFrom k l := by
  induction l generalizing k with
  | nil => cases h
  | cons y ys ih =>
    rcases List.mem_cons.mp h with heq | hmem
    · subst heq
      exact ⟨k, List.mem_cons_self _ _⟩
    · rcases ih hmem (k + 1) with ⟨rk, hrk⟩
      exact ⟨rk, List.mem_cons_of_mem _ hrk⟩

theorem get_addRanksFrom (l : List EvaluatedEntry) (k i : Nat) (h : i < l.length) :
    (addRanksFrom k l).get ⟨i, by rw [length_addRanksFrom]; exact h⟩
      = mkRanked (l.get ⟨i, h⟩) (k + i) := by
  induction l generalizing k i with
  | nil => cases h
  | cons e es ih =>
    cases i with
    | zero => simp [addRanksFrom]
    | succ j =>
      have hj : j < es.length := by simpa using h
      have := ih (k + 1) j hj
      simp only [addRanksFrom, List.get_cons_succ]
      rw [this]
      congr 1
      omega

theorem exists_source_of_mem_addRanksFrom {x : RankedCandidate} {l : List EvaluatedEntry}
    {k : Nat} (hx : x ∈ addRanksFrom k l) : ∃ z ∈ l, x.score = z.score := by
  induction l generalizing k with
  | nil => cases hx
  | cons e es ih =>
    rcases List.mem_cons.mp hx with heq | hmem
    · exact ⟨e, List.mem_cons_self _ _, by rw [heq]; rfl⟩
    · rcases ih hmem with ⟨z, hz, hsc⟩
      exact ⟨z, List.mem_cons_of_mem _ hz, hsc⟩

theorem rank_lb_of_mem_addRanksFrom {x : RankedCandidate} {l : List EvaluatedEntry}
    {k : Nat} (hx : x ∈ addRanksFrom k l) : k ≤ x.rank := by
  induction l generalizing k with
  | nil => cases hx
  | cons e es ih =>
    rcases List.mem_cons.mp hx with heq | hmem
    · rw [heq]
      exact le_refl k
    · exact le_trans (Nat.le_succ k) (ih hmem)

theorem addRanksFrom_rank_lt {l : List EvaluatedEntry}
    (hpw : l.Pairwise (fun a b => b.score ≤ a.score)) (k : Nat) :
    ∀ x ∈ addRanksFrom k l, ∀ y ∈ addRanksFrom k l,
      1 ≤ x.score → y.score = 0 → x.rank < y.rank := by
  induction l generalizing k with
  | nil => intro x hx; cases hx
  | cons e es ih =>
    rw [List.pairwise_cons] at hpw
    intro x hx y hy hx1 hy0
    rcases List.mem_cons.mp hx with hxe | hxm
    · rcases List.mem_cons.mp hy with hye | hym
      · exfalso
        rw [hxe] at hx1
        rw [hye] at hy0
        simp only [mkRanked] at hx1 hy0
        omega
      · have hk := rank_lb_of_mem_addRanksFrom hym
        rw [hxe]
        simp only [mkRanked]
        omega
    · rcases List.mem_cons.mp hy with hye | hym
      · exfalso
        rcases exists_source_of_mem_addRanksFrom hxm with ⟨z, hz, hsc⟩
        have := hpw.1 z hz
        rw [hye] at hy0
        simp only [mkRanked] at hy0
        omega
      · exact ih hpw.2 (k + 1) x hxm y hym hx1 hy0

/-! ### JSON string-literal round trip -/

theorem hexVal_hexChar : ∀ d < 16, hexVal (hexChar d) = some d := by decide

theorem psb_dquote (cs : List Char) : parseStringBody (dquote :: cs) = some ([], cs) := by
  simp [parseStringBody]

theorem psb_esc (e u : Char) (cs : List Char) (hne : ¬ e = 'u')
    (hu : unescapeChar e = some u) :
    parseStringBody (bslash :: e :: cs)
      = (parseStringBody cs).map (fun p => (u :: p.1, p.2)) := by
  simp +decide [parseStringBody, parseEscape, hne, hu]

theorem psb_u (h1 h0 : Char) (a b : Nat) (cs : List Char)
    (ha : hexVal h1 = some a) (hb : hexVal h0 = some b) :
    parseStringBody (bslash :: 'u' :: '0' :: '0' :: h1 :: h0 :: cs)
      = (parseStringBody cs).map (fun p => (Char.ofNat (a * 16 + b) :: p.1, p.2)) := by
  simp +decide [parseStringBody, parseEscape, parseHexQuad,
    show hexVal '0' = some 0 from rfl, ha, hb]

theorem psb_plain (c : Char) (cs : List Char) (h1 : ¬ c = dquote) (h2 : ¬ c = bslash)
    (h3 : ¬ c.toNat < 32) :
    parseStringBody (c :: cs) = (parseStringBody cs).map (fun p => (c :: p.1, p.2)) := by
  simp [parseStringBody, h1, h2, h3]

theorem parseStringBody_escChar (c : Char) (cs : List Char) :
    parseStringBody (escChar c ++ cs)
      = (parseStringBody cs).map (fun p => (c :: p.1, p.2)) := by
  by_cases h1 : c = dquote
  · subst h1
    rw [show escChar dquote = [bslash, dquote] from by simp [escChar]]
    exact psb_esc _ _ _ (by decide) (by decide)
  by_cases h2 : c = bslash
  · subst h2
    rw [show escChar bslash = [bslash, bslash] from by simp [escChar, h1]]
    exact psb_esc _ _ _ (by decide) (by decide)
  by_cases h3 : c = '\n'
  · subst h3
    rw [show escChar '\n' = [bslash, 'n'] from by simp [escChar, h1, h2]]
    exact psb_esc _ _ _ (by decide) (by decide)
  by_cases h4 : c = '\t'
  · subst h4
    rw [show escChar '\t' = [bslash, 't'] from by simp [escChar, h1, h2, h3]]
    exact psb_esc _ _ _ (by decide) (by decide)
  by_cases h5 : c = '\r'
  · subst h5
    rw [show escChar '\r' = [bslash, 'r'] from by simp [escChar, h1, h2, h3, h4]]
    exact psb_esc _ _ _ (by decide) (by decide)
  by_cases h6 : c = Char.ofNat 8
  · subst h6
    rw [show escChar (Char.ofNat 8) = [bslash, 'b'] from by
      simp [escChar, h1, h2, h3, h4, h5]]
    exact psb_esc _ _ _ (by decide) (by decide)
  by_cases h7 : c = Char.ofNat 12
  · subst h7
    rw [show escChar (Char.ofNat 12) = [bslash, 'f'] from by
      simp [escChar, h1, h2, h3, h4, h5, h6]]
    exact psb_esc _ _ _ (by decide) (by decide)
  by_cases h8 : c.toNat < 32
  · rw [show escChar c
        = [bslash, 'u', '0', '0', hexChar (c.toNat / 16), hexChar (c.toNat % 16)] from by
      simp [escChar, h1, h2, h3, h4, h5, h6, h7, h8]]
    rw [show ([bslash, 'u', '0', '0', hexChar (c.toNat / 16), hexChar (c.toNat % 16)] ++ cs)
        = bslash :: 'u' :: '0' :: '0' :: hexChar (c.toNat / 16) :: hexChar (c.toNat % 16) :: cs
      from rfl]
    rw [psb_u _ _ _ _ _ (hexVal_hexChar _ (by omega)) (hexVal_hexChar _ (by omega))]
    have hval : c.toNat / 16 * 16 + c.toNat % 16 = c.toNat := by omega
    rw [hval, Char.ofNat_toNat]
  · rw [show escChar c = [c] from by simp [escChar, h1, h2, h3, h4, h5, h6, h7, h8]]
    exact psb_plain _ _ h1 h2 h8

theorem parseStringBody_escString (s rest : List Char) :
    parseStringBody (escString s ++ (dquote :: rest)) = some (s, rest) := by
  induction s with
  | nil => simpa using psb_dquote rest
  | cons c s ih =>
    show parseStringBody ((escChar c ++ escString s) ++ (dquote :: rest)) = _
    rw [List.append_assoc, parseStringBody_escChar, ih]
    rfl

/-! ### Parsing the rendered evaluation object -/

/-- Parsing a single digit followed by a comma. -/
theorem parseValue_digit (f : Nat) (d : Char) (rest : List Char) (hd : isDigitC d = true) :
    parseValue (f + 1) (d :: ',' :: rest)
      = some (JValue.jnum ((d.toNat - 48 : Nat) : Int), ',' :: rest) := by
  have h1 : ¬ d = dquote := fun h => by subst h; exact absurd hd (by decide)
  have h2 : ¬ d = lbrace := fun h => by subst h; exact absurd hd (by decide)
  have h3 : ¬ d = '[' := fun h => by subst h; exact absurd hd (by decide)
  have h4 : ¬ d = 't' := fun h => by subst h; exact absurd hd (by decide)
  have h5 : ¬ d = 'f' := fun h => by subst h; exact absurd hd (by decide)
  have h6 : ¬ d = 'n' := fun h => by subst h; exact absurd hd (by decide)
  have h7 : jsonWs d = false := by
    simp only [jsonWs, Bool.or_eq_false_iff, beq_eq_false_iff_ne, ne_eq]
    and_intros <;> (intro h; subst h; exact absurd hd (by decide))
  have h8 : ¬ d = '-' := fun h => by subst h; exact absurd hd (by decide)
  simp +decide [parseValue, parseNumber, parseNat, skipWs, hd, h1, h2, h3, h4, h5, h6, h7, h8,
    show jsonWs ',' = false from rfl, show isDigitC ',' = false from rfl,
    List.takeWhile, List.dropWhile]

/-- Parsing a string value written with escapes. -/
theorem parseValue_str (f : Nat) (s rest : List Char) :
    parseValue (f + 1) (dquote :: (escString s ++ (dquote :: rest)))
      = some (JValue.jstr s, rest) := by
  simp +decide [parseValue, skipWs, List.dropWhile,
    show jsonWs dquote = false from rfl, parseStringBody_escString]

/-- Parsing the literal key `"score"` (after its opening quote). -/
theorem psb_key_score (r : List Char) :
    parseStringBody ('s' :: 'c' :: 'o' :: 'r' :: 'e' :: dquote :: r)
      = some ("score".toList, r) := by
  simp +decide [parseStringBody, Option.map_map]

/-- Parsing the literal key `"summary"` (after its opening quote). -/
theorem psb_key_summary (r : List Char) :
    parseStringBody ('s' :: 'u' :: 'm' :: 'm' :: 'a' :: 'r' :: 'y' :: dquote :: r)
      = some ("summary".toList, r) := by
  simp +decide [parseStringBody, Option.map_map]

/-- Parsing the literal key `"improvement"` (after its opening quote). -/
theorem psb_key_improvement (r : List Char) :
    parseStringBody ('i' :: 'm' :: 'p' :: 'r' :: 'o' :: 'v' :: 'e' :: 'm' :: 'e' :: 'n' ::
        't' :: dquote :: r)
      = some ("improvement".toList, r) := by
  simp +decide [parseStringBody, Option.map_map]

/-- One non-final object member: a quoted key, a colon, a value, a comma. -/
theorem parseMembers_step (f : Nat) (l key r2 r3 r5 : List Char) (v : JValue)
    (hkey : parseStringBody l = some (key, r2))
    (hcolon : r2 = ':' :: r3)
    (hval : parseValue f r3 = some (v, ',' :: r5)) :
    parseMembers (f + 1) (dquote :: l)
      = (parseMembers f (skipWs r5)).map (fun p => ((key, v) :: p.1, p.2)) := by
  subst hcolon
  simp +decide [parseMembers, hkey, hval, skipWs, List.dropWhile,
    show jsonWs ':' = false from rfl, show jsonWs ',' = false from rfl]

/-- The final object member: a quoted key, a colon, a value, the closing
brace. -/
theorem parseMembers_last (f : Nat) (l key r2 r3 r5 : List Char) (v : JValue)
    (hkey : parseStringBody l = some (key, r2))
    (hcolon : r2 = ':' :: r3)
    (hval : parseValue f r3 = some (v, rbrace :: r5)) :
    parseMembers (f + 1) (dquote :: l) = some ([(key, v)], r5) := by
  subst hcolon
  simp +decide [parseMembers, hkey, hval, skipWs, List.dropWhile,
    show jsonWs ':' = false from rfl, show jsonWs rbrace = false from rfl]

/-- Parsing the canonical rendered text of the three-field evaluation object. -/
theorem parseValue_evalText (f : Nat) (d : Char) (hd : isDigitC d = true) (s i : List Char) :
    parseValue (f + 6) (evalText d s i)
      = some (JValue.jobj [("score".toList, JValue.jnum ((d.toNat - 48 : Nat) : Int)),
          ("summary".toList, JValue.jstr s), ("improvement".toList, JValue.jstr i)], []) := by
  unfold evalText
  have himp : parseMembers (f + 3)
      (dquote :: 'i' :: 'm' :: 'p' :: 'r' :: 'o' :: 'v' :: 'e' :: 'm' :: 'e' :: 'n' :: 't' ::
        dquote :: ':' :: dquote :: (escString i ++ (dquote :: rbrace :: [])))
      = some ([("improvement".toList, JValue.jstr i)], []) := by
    have hv : parseValue (f + 2) (dquote :: (escString i ++ (dquote :: rbrace :: [])))
        = some (JValue.jstr i, rbrace :: []) := parseValue_str (f + 1) i (rbrace :: [])
    exact parseMembers_last (f + 2) _ _ _ _ _ _ (psb_key_improvement _) rfl hv
  have hsum : parseMembers (f + 4)
      (dquote :: 's' :: 'u' :: 'm' :: 'm' :: 'a' :: 'r' :: 'y' :: dquote :: ':' :: dquote ::
        (escString s ++ (dquote :: ',' :: dquote :: 'i' :: 'm' :: 'p' :: 'r' :: 'o' :: 'v' ::
          'e' :: 'm' :: 'e' :: 'n' :: 't' :: dquote :: ':' :: dquote ::
          (escString i ++ (dquote :: rbrace :: [])))))
      = some ([("summary".toList, JValue.jstr s),
          ("improvement".toList, JValue.jstr i)], []) := by
    have hv : parseValue (f + 3)
        (dquote :: (escString s ++ (dquote :: ',' :: dquote :: 'i' :: 'm' :: 'p' :: 'r' ::
          'o' :: 'v' :: 'e' :: 'm' :: 'e' :: 'n' :: 't' :: dquote :: ':' :: dquote ::
          (escString i ++ (dquote :: rbrace :: [])))))
        = some (JValue.jstr s, ',' :: dquote :: 'i' :: 'm' :: 'p' :: 'r' :: 'o' :: 'v' ::
            'e' :: 'm' :: 'e' :: 'n' :: 't' :: dquote :: ':' :: dquote ::
            (escString i ++ (dquote :: rbrace :: []))) := parseValue_str (f + 2) s _
    rw [parseMembers_step (f + 3) _ _ _ _ _ _ (psb_key_summary _) rfl hv]
    rw [show skipWs (dquote :: 'i' :: 'm' :: 'p' :: 'r' :: 'o' :: 'v' :: 'e' :: 'm' :: 'e' ::
        'n' :: 't' :: dquote :: ':' :: dquote :: (escString i ++ (dquote :: rbrace :: [])))
      = dquote :: 'i' :: 'm' :: 'p' :: 'r' :: 'o' :: 'v' :: 'e' :: 'm' :: 'e' :: 'n' :: 't' ::
        dquote :: ':' :: dquote :: (escString i ++ (dquote :: rbrace :: []))
      from rfl]
    rw [himp]
    rfl
  have hscore : parseMembers (f + 5)
      (dquote :: 's' :: 'c' :: 'o' :: 'r' :: 'e' :: dquote :: ':' :: d :: ',' ::
        dquote :: 's' :: 'u' :: 'm' :: 'm' :: 'a' :: 'r' :: 'y' :: dquote :: ':' :: dquote ::
        (escString s ++ (dquote :: ',' :: dquote :: 'i' :: 'm' :: 'p' :: 'r' :: 'o' :: 'v' ::
          'e' :: 'm' :: 'e' :: 'n' :: 't' :: dquote :: ':' :: dquote ::
          (escString i ++ (dquote :: rbrace :: [])))))
      = some ([("score".toList, JValue.jnum ((d.toNat - 48 : Nat) : Int)),
          ("summary".toList, JValue.jstr s),
          ("improvement".toList, JValue.jstr i)], []) := by
    have hv : parseValue (f + 4)
        (d :: ',' :: dquote :: 's' :: 'u' :: 'm' :: 'm' :: 'a' :: 'r' :: 'y' :: dquote ::
          ':' :: dquote :: (escString s ++ (dquote :: ',' :: dquote :: 'i' :: 'm' :: 'p' ::
          'r' :: 'o' :: 'v' :: 'e' :: 'm' :: 'e' :: 'n' :: 't' :: dquote :: ':' :: dquote ::
          (escString i ++ (dquote :: rbrace :: [])))))
        = some (JValue.jnum ((d.toNat - 48 : Nat) : Int), ',' :: dquote :: 's' :: 'u' ::
            'm' :: 'm' :: 'a' :: 'r' :: 'y' :: dquote :: ':' :: dquote ::
            (escString s ++ (dquote :: ',' :: dquote :: 'i' :: 'm' :: 'p' :: 'r' :: 'o' ::
            'v' :: 'e' :: 'm' :: 'e' :: 'n' :: 't' :: dquote :: ':' :: dquote ::
            (escString i ++ (dquote :: rbrace :: []))))) :=
      parseValue_digit (f + 3) d _ hd
    rw [parseMembers_step (f + 4) _ _ _ _ _ _ (psb_key_score _) rfl hv]
    rw [show skipWs (dquote :: 's' :: 'u' :: 'm' :: 'm' :: 'a' :: 'r' :: 'y' :: dquote ::
        ':' :: dquote :: (escString s ++ (dquote :: ',' :: dquote :: 'i' :: 'm' :: 'p' ::
        'r' :: 'o' :: 'v' :: 'e' :: 'm' :: 'e' :: 'n' :: 't' :: dquote :: ':' :: dquote ::
        (escString i ++ (dquote :: rbrace :: [])))))
      = dquote :: 's' :: 'u' :: 'm' :: 'm' :: 'a' :: 'r' :: 'y' :: dquote :: ':' :: dquote ::
        (escString s ++ (dquote :: ',' :: dquote :: 'i' :: 'm' :: 'p' :: 'r' :: 'o' :: 'v' ::
        'e' :: 'm' :: 'e' :: 'n' :: 't' :: dquote :: ':' :: dquote ::
        (escString i ++ (dquote :: rbrace :: []))))
      from rfl]
    rw [hsum]
    rfl
  have hstep : parseValue (f + 5 + 1)
      (lbrace :: dquote :: 's' :: 'c' :: 'o' :: 'r' :: 'e' :: dquote :: ':' :: d :: ',' ::
        dquote :: 's' :: 'u' :: 'm' :: 'm' :: 'a' :: 'r' :: 'y' :: dquote :: ':' :: dquote ::
        (escString s ++ (dquote :: ',' :: dquote :: 'i' :: 'm' :: 'p' :: 'r' :: 'o' :: 'v' ::
          'e' :: 'm' :: 'e' :: 'n' :: 't' :: dquote :: ':' :: dquote ::
          (escString i ++ (dquote :: rbrace :: [])))))
      = some (JValue.jobj [("score".toList, JValue.jnum ((d.toNat - 48 : Nat) : Int)),
          ("summary".toList, JValue.jstr s), ("improvement".toList, JValue.jstr i)], []) := by
    simp +decide [parseValue, skipWs, List.dropWhile, hscore,
      show jsonWs lbrace = false from rfl, show jsonWs dquote = false from rfl]
  exact hstep

/-- `json.loads` recovers the object denoted by `renderEval` for any score
between 1 and 5. -/
theorem jsonLoads_renderEval (k : Int) (hk1 : 1 ≤ k) (hk2 : k ≤ 5) (s i : List Char) :
    jsonLoads (renderEval k s i) = some (evalObj k s i) := by
  have hlen : 6 ≤ (renderEval k s i).length + 1 := by
    simp only [renderEval, List.length_append,
      show ("\x7b\"score\":".toList).length = 9 from rfl]
    omega
  obtain ⟨f, hf⟩ : ∃ f, (renderEval k s i).length + 1 = f + 6 :=
    ⟨(renderEval k s i).length + 1 - 6, by omega⟩
  unfold jsonLoads
  rw [hf]
  interval_cases k
  · have hre : renderEval 1 s i = evalText '1' s i := rfl
    rw [hre, parseValue_evalText f '1' (by decide) s i]
    rfl
  · have hre : renderEval 2 s i = evalText '2' s i := rfl
    rw [hre, parseValue_evalText f '2' (by decide) s i]
    rfl
  · have hre : renderEval 3 s i = evalText '3' s i := rfl
    rw [hre, parseValue_evalText f '3' (by decide) s i]
    rfl
  · have hre : renderEval 4 s i = evalText '4' s i := rfl
    rw [hre, parseValue_evalText f '4' (by decide) s i]
    rfl
  · have hre : renderEval 5 s i = evalText '5' s i := rfl
    rw [hre, parseValue_evalText f '5' (by decide) s i]
    rfl

/-! ### Stripping the fenced and tagged wrappings -/

/-- `renderEval` starts with a left brace and ends with a right brace. -/
theorem renderEval_shape (k : Int) (s i : List Char) :
    ∃ M, renderEval k s i = lbrace :: (M ++ [rbrace]) := by
  refine ⟨"\"score\":".toList ++ ((toString k).toList ++ (",\"summary\":\"".toList
    ++ (escString s ++ ("\",\"improvement\":\"".toList ++ (escString i ++ [dquote]))))), ?_⟩
  have h1 : renderEval k s i
      = lbrace :: ("\"score\":".toList ++ ((toString k).toList ++ (",\"summary\":\"".toList
        ++ (escString s ++ ("\",\"improvement\":\"".toList
        ++ (escString i ++ (dquote :: [rbrace]))))))) := rfl
  rw [h1]
  simp [List.append_assoc]

theorem trimChars_renderEval (k : Int) (s i : List Char) :
    trimChars (renderEval k s i) = renderEval k s i := by
  rcases renderEval_shape k s i with ⟨M, hM⟩
  rw [hM]
  exact trimChars_of_nonws_ends _ (by decide) (by decide)

theorem containsTicksB_tail {c : Char} {l : List Char}
    (h : containsTicksB (c :: l) = false) : containsTicksB l = false := by
  match l with
  | [] => rfl
  | [x] => rfl
  | x :: y :: r =>
    rw [containsTicksB] at h
    exact (Bool.or_eq_false_iff.mp h).2

/-- A text that ends in a right brace and contains no fence marker, followed
by a newline and a closing fence: the lazy scan's closing-fence test fails at
its start. -/
theorem cond_append_false (t : List Char) (h1 : containsTicksB t = false)
    (h2 : ∃ u, t = u ++ [rbrace]) :
    startsWithTicks ((t ++ '\n' :: ticks).dropWhile wsChar) = false := by
  induction t with
  | nil =>
    rcases h2 with ⟨u, hu⟩
    exact absurd (congrArg List.length hu) (by simp)
  | cons c t' ih =>
    rcases h2 with ⟨u, hu⟩
    by_cases hws : wsChar c = true
    · have ht' : ∃ u', t' = u' ++ [rbrace] := by
        cases u with
        | nil =>
          exfalso
          have : c = rbrace := by simpa using congrArg (fun l => l.headD c) hu
          subst this
          exact absurd hws (by decide)
        | cons a u' =>
          refine ⟨u', ?_⟩
          have := congrArg List.tail hu
          simpa using this
      have hstep : ((c :: t') ++ '\n' :: ticks).dropWhile wsChar
          = (t' ++ '\n' :: ticks).dropWhile wsChar := by
        simp [List.dropWhile_cons, hws]
      rw [hstep]
      exact ih (containsTicksB_tail h1) ht'
    · have hstep : ((c :: t') ++ '\n' :: ticks).dropWhile wsChar
          = c :: (t' ++ '\n' :: ticks) := by
        simp [List.dropWhile_cons, hws]
      rw [hstep]
      match t', h1 with
      | [], h1 =>
        have hc : c = rbrace := by
          cases u with
          | nil => simpa using congrArg (fun l => l.headD c) hu
          | cons a u' =>
            exfalso
            have := congrArg List.length hu
            simp at this
        subst hc
        rfl
      | [d], h1 =>
        simp [startsWithTicks, ticks, show ('\n' == tickChar) = false from rfl]
      | d :: e :: t'', h1 =>
        rw [containsTicksB] at h1
        have := (Bool.or_eq_false_iff.mp h1).1
        simpa [startsWithTicks] using this

/-- The lazy scan of a fence-free, brace-terminated text followed by a
newline and a closing fence captures exactly the text. -/
theorem lazyScan_wrap (t : List Char) (h1 : containsTicksB t = false)
    (h2 : ∃ u, t = u ++ [rbrace]) :
    lazyScan (t ++ '\n' :: ticks) = some t := by
  induction t with
  | nil =>
    rcases h2 with ⟨u, hu⟩
    exact absurd (congrArg List.length hu) (by simp)
  | cons c t' ih =>
    have hcond := cond_append_false (c :: t') h1 h2
    have hcond' : startsWithTicks (List.dropWhile wsChar (c :: (t' ++ '\n' :: ticks)))
        = false := by
      rw [← List.cons_append]
      exact hcond
    rw [List.cons_append, lazyScan]
    rw [if_neg (by simp [hcond'])]
    rcases h2 with ⟨u, hu⟩
    cases u with
    | nil =>
      have hc : c = rbrace := by simpa using congrArg (fun l => l.headD c) hu
      have ht' : t' = [] := by simpa using congrArg List.tail hu
      subst hc
      subst ht'
      rfl
    | cons a u' =>
      have ht' : t' = u' ++ [rbrace] := by simpa using congrArg List.tail hu
      rw [ih (containsTicksB_tail h1) ⟨u', ht'⟩]
      rfl

theorem startsWithTicks_lbrace (r : List Char) : startsWithTicks (lbrace :: r) = false := by
  match r with
  | [] => rfl
  | [a] => rfl
  | a :: b :: r' => rfl

theorem startsWithJson_lbrace (r : List Char) : startsWithJson (lbrace :: r) = false := by
  match r with
  | [] => rfl
  | [a] => rfl
  | [a, b] => rfl
  | a :: b :: c :: r' => rfl

/-- `_strip_markdown` leaves the bare rendered object unchanged. -/
theorem strip_markdown_renderEval (k : Int) (s i : List Char) :
    strip_markdown (renderEval k s i) = renderEval k s i := by
  rcases renderEval_shape k s i with ⟨M, hM⟩
  have hT : startsWithTicks (renderEval k s i) = false := by
    rw [hM]; exact startsWithTicks_lbrace _
  have hJ : startsWithJson (renderEval k s i) = false := by
    rw [hM]; exact startsWithJson_lbrace _
  simp [strip_markdown, stripFence, stripJsonTag, trimChars_renderEval k s i, hT, hJ]

/-- `_strip_markdown` recovers the object text from a json-tagged fence. -/
theorem strip_markdown_fencedJson (t : List Char) (h1 : containsTicksB t = false)
    (h2 : ∃ u, t = u ++ [rbrace]) (h3 : ∃ r, t = lbrace :: r)
    (htrim : trimChars t = t) :
    strip_markdown (fencedJson t) = t := by
  have hshape : fencedJson t
      = tickChar :: ((tickChar :: tickChar :: ("json".toList
          ++ ('\n' :: (t ++ ('\n' :: tickChar :: tickChar :: []))))) ++ [tickChar]) := by
    simp [fencedJson, ticks, List.append_assoc]
  have htrimF : trimChars (fencedJson t) = fencedJson t := by
    rw [hshape]
    exact trimChars_of_nonws_ends _ (by decide) (by decide)
  have hfg : fenceGroup (fencedJson t) = some t := by
    obtain ⟨r, hr⟩ := h3
    have e1 : (fencedJson t).drop 3
        = "json".toList ++ ('\n' :: (t ++ ('\n' :: ticks))) := rfl
    have e2 : startsWithJson ("json".toList ++ ('\n' :: (t ++ ('\n' :: ticks)))) = true := rfl
    have e3 : (("json".toList ++ ('\n' :: (t ++ ('\n' :: ticks)))).drop 4)
        = '\n' :: (t ++ ('\n' :: ticks)) := rfl
    have e4 : ('\n' :: (t ++ ('\n' :: ticks))).dropWhile wsChar = t ++ ('\n' :: ticks) := by
      rw [hr]
      simp [List.dropWhile_cons, show wsChar '\n' = true from rfl,
        show wsChar lbrace = false from rfl]
    simp only [fenceGroup, e1, e2, if_true, e3, e4]
    exact lazyScan_wrap t h1 h2
  have hTick : startsWithTicks (fencedJson t) = true := rfl
  have hJ : startsWithJson t = false := by
    obtain ⟨r, hr⟩ := h3
    rw [hr]; exact startsWithJson_lbrace _
  simp [strip_markdown, stripFence, stripJsonTag, htrimF, hTick, hfg, htrim, hJ]

/-- `_strip_markdown` recovers the object text from a plain fence. -/
theorem strip_markdown_fencedPlain (t : List Char) (h1 : containsTicksB t = false)
    (h2 : ∃ u, t = u ++ [rbrace]) (h3 : ∃ r, t = lbrace :: r)
    (htrim : trimChars t = t) :
    strip_markdown (fencedPlain t) = t := by
  have hshape : fencedPlain t
      = tickChar :: ((tickChar :: tickChar ::
          ('\n' :: (t ++ ('\n' :: tickChar :: tickChar :: [])))) ++ [tickChar]) := by
    simp [fencedPlain, ticks, List.append_assoc]
  have htrimF : trimChars (fencedPlain t) = fencedPlain t := by
    rw [hshape]
    exact trimChars_of_nonws_ends _ (by decide) (by decide)
  have hfg : fenceGroup (fencedPlain t) = some t := by
    obtain ⟨r, hr⟩ := h3
    have e1 : (fencedPlain t).drop 3 = '\n' :: (t ++ ('\n' :: ticks)) := rfl
    have e2 : startsWithJson ('\n' :: (t ++ ('\n' :: ticks))) = false := rfl
    have e4 : ('\n' :: (t ++ ('\n' :: ticks))).dropWhile wsChar = t ++ ('\n' :: ticks) := by
      rw [hr]
      simp [List.dropWhile_cons, show wsChar '\n' = true from rfl,
        show wsChar lbrace = false from rfl]
    simp only [fenceGroup, e1, e2, Bool.false_eq_true, if_false, e4]
    exact lazyScan_wrap t h1 h2
  have hTick : startsWithTicks (fencedPlain t) = true := rfl
  have hJ : startsWithJson t = false := by
    obtain ⟨r, hr⟩ := h3
    rw [hr]; exact startsWithJson_lbrace _
  simp [strip_markdown, stripFence, stripJsonTag, htrimF, hTick, hfg, htrim, hJ]

/-- `_strip_markdown` drops a bare leading `json` token. -/
theorem strip_markdown_jsonTagged (t : List Char)
    (h2 : ∃ u, t = u ++ [rbrace]) (h3 : ∃ r, t = lbrace :: r) :
    strip_markdown (jsonTagged t) = t := by
  obtain ⟨u, hu⟩ := h2
  obtain ⟨r, hr⟩ := h3
  have htrimT : trimChars (jsonTagged t) = jsonTagged t := by
    have hshape : jsonTagged t
        = 'j' :: (('s' :: 'o' :: 'n' :: ' ' :: u) ++ [rbrace]) := by
      rw [hu]
      simp [jsonTagged, List.append_assoc]
    rw [hshape]
    exact trimChars_of_nonws_ends _ (by decide) (by decide)
  have hTick : startsWithTicks (jsonTagged t) = false := rfl
  have hJ : startsWithJson (jsonTagged t) = true := rfl
  have hdrop : (jsonTagged t).drop 4 = ' ' :: t := rfl
  have htr : trimChars (' ' :: t) = t := by
    have hL : trimLeft (' ' :: t) = t := by
      rw [hr]
      simp [trimLeft, List.dropWhile_cons, show wsChar ' ' = true from rfl,
        show wsChar lbrace = false from rfl]
    unfold trimChars
    rw [hL, hu, ← hu]
    rw [hu]
    exact trimRight_append_of_nonws _ (by decide)
  simp [strip_markdown, stripFence, stripJsonTag, htrimT, hTick, hJ, hdrop, htr]

/-- `cleanedOf` coincides with a single `_strip_markdown` pass (the response
text is already stripped once at line 157, and stripping is built from
idempotent trims). -/
theorem cleanedOf_eq_strip (raw : List Char) : cleanedOf raw = strip_markdown raw := by
  unfold cleanedOf strip_markdown
  rw [trimChars_idem]

/-- The extraction pipeline written with explicit binds (definitional
unfolding of the `do` block of `extractEval`). -/
theorem extractEval_eq (raw : List Char) :
    extractEval raw
      = (parseStage (cleanedOf raw)).bind (fun result =>
          (checkFields result).bind (fun _ =>
            (pySubscript result keyScore).bind (fun sv =>
              (pyInt sv).bind (fun n =>
                (pySubscript result keySummary).bind (fun sumv =>
                  (pySubscript result keyImprovement).bind (fun impv =>
                    mkEvaluationResponse n (pyStr sumv) (pyStr impv))))))) := rfl

/-- Successful extraction from any raw text that cleans to the rendered
object. -/
theorem extractEval_renderEval (k : Int) (hk1 : 1 ≤ k) (hk2 : k ≤ 5) (s i raw : List Char)
    (hclean : cleanedOf raw = renderEval k s i) :
    extractEval raw = Except.ok ⟨k, s, i, hk1, hk2⟩ := by
  have hps : parseStage (cleanedOf raw) = Except.ok (evalObj k s i) := by
    rw [hclean]
    unfold parseStage
    rw [jsonLoads_renderEval k hk1 hk2 s i]
  rw [extractEval_eq, hps]
  show mkEvaluationResponse k s i = Except.ok ⟨k, s, i, hk1, hk2⟩
  unfold mkEvaluationResponse
  rw [dif_pos ⟨hk1, hk2⟩]

/-! ## Claims -/

/-- Claim C1: for every batch submitted to rank-candidates, if the
evaluate-one step fails for any candidate for any reason, the batch is not
aborted: the output still has N entries, and the failed candidate's entry is a
placeholder with score 0, a summary containing the failure description (the
fixed prefix followed by the rendered exception), the fixed retry-suggestion
improvement, and the original candidate id and answer preserved. -/
theorem C1_partial_failure_isolation
    (avail : Bool) (ie : List Char)
    (mcOf : CandidateAnswer → Except (List Char) (List Char))
    (req : RankRequest) (c : CandidateAnswer) (e : HTTPExc)
    (hc : c ∈ req.candidates)
    (hfail : (evaluate_with_groq avail ie (mcOf c) c.answer c.question_context).1
      = Except.error e) :
    ∃ resp, rank_candidates avail ie mcOf req = Except.ok resp
      ∧ resp.ranked_candidates.length = req.candidates.length
      ∧ ∃ entry ∈ resp.ranked_candidates,
          entry.candidate_id = c.candidate_id ∧ entry.answer = c.answer
          ∧ entry.score = 0
          ∧ entry.summary = evalFailedPrefix ++ strOfHTTPExc e
          ∧ entry.improvement = retryMsg := by
  have hie : req.candidates.isEmpty = false := by
    cases hl : req.candidates with
    | nil => rw [hl] at hc; cases hc
    | cons a as => rfl
  refine ⟨⟨rank_core (req.candidates.map (evaluateCandidate avail ie mcOf))⟩, ?_, ?_, ?_⟩
  · simp [rank_candidates, hie]
  · simp [rank_core, length_addRanksFrom, (sortByScoreDesc_perm _).length_eq]
  · have hpc : evaluateCandidate avail ie mcOf c
        = ⟨c.candidate_id, c.answer, 0, evalFailedPrefix ++ strOfHTTPExc e, retryMsg⟩ := by
      simp [evaluateCandidate, hfail]
    have hmem1 : evaluateCandidate avail ie mcOf c
        ∈ req.candidates.map (evaluateCandidate avail ie mcOf) :=
      List.mem_map_of_mem _ hc
    rw [hpc] at hmem1
    have hmem2 := (sortByScoreDesc_perm
      (req.candidates.map (evaluateCandidate avail ie mcOf))).mem_iff.mpr hmem1
    rcases mem_addRanksFrom_of_mem hmem2 1 with ⟨rk, hrk⟩
    exact ⟨mkRanked ⟨c.candidate_id, c.answer, 0, evalFailedPrefix ++ strOfHTTPExc e, retryMsg⟩ rk,
      hrk, rfl, rfl, rfl, rfl, rfl⟩

/-- Witness for C1 at a concrete batch: one candidate whose model call fails. -/
theorem C1_partial_failure_isolation_witness :
    wFail ∈ (RankRequest.mk [wFail]).candidates
    ∧ (evaluate_with_groq true [] (wMc wFail) wFail.answer wFail.question_context).1
        = Except.error ⟨500, Detail.groqApi "boom".toList⟩
    ∧ ∃ resp, rank_candidates true [] wMc ⟨[wFail]⟩ = Except.ok resp
        ∧ resp.ranked_candidates.length = (RankRequest.mk [wFail]).candidates.length
        ∧ ∃ entry ∈ resp.ranked_candidates,
            entry.candidate_id = wFail.candidate_id ∧ entry.answer = wFail.answer
            ∧ entry.score = 0
            ∧ entry.summary
              = evalFailedPrefix ++ strOfHTTPExc ⟨500, Detail.groqApi "boom".toList⟩
            ∧ entry.improvement = retryMsg :=
  ⟨List.mem_singleton.mpr rfl, rfl,
    C1_partial_failure_isolation true [] wMc ⟨[wFail]⟩ wFail
      ⟨500, Detail.groqApi "boom".toList⟩ (List.mem_singleton.mpr rfl) rfl⟩

/-- Claim C9: the ranking component itself maps an empty candidate sequence to
an empty output (the per-candidate loop, sort and rank stages), while the
rejection of empty candidate lists happens at the caller-facing boundary,
which answers 400. -/
theorem C9_empty_batch_component (avail : Bool) (ie : List Char)
    (mcOf : CandidateAnswer → Except (List Char) (List Char)) :
    rank_core (([] : List CandidateAnswer).map (evaluateCandidate avail ie mcOf)) = []
    ∧ rank_candidates avail ie mcOf ⟨[]⟩ = Except.error ⟨400, Detail.emptyCandidates⟩ :=
  ⟨rfl, rfl⟩

/-- Claim C10 (implicit): in every ranked output, scores are either the
placeholder 0 or a successful evaluation's score in [1,5], and every
score-0 placeholder entry is ranked strictly below every successfully
evaluated entry. -/
theorem C10_failures_ranked_below_successes
    (avail : Bool) (ie : List Char)
    (mcOf : CandidateAnswer → Except (List Char) (List Char))
    (req : RankRequest) (resp : RankResponse)
    (hok : rank_candidates avail ie mcOf req = Except.ok resp) :
    (∀ x ∈ resp.ranked_candidates, x.score = 0 ∨ (1 ≤ x.score ∧ x.score ≤ 5))
    ∧ ∀ x ∈ resp.ranked_candidates, ∀ y ∈ resp.ranked_candidates,
        1 ≤ x.score → y.score = 0 → x.rank < y.rank := by
  have hresp : resp = ⟨rank_core (req.candidates.map (evaluateCandidate avail ie mcOf))⟩ := by
    unfold rank_candidates at hok
    split at hok
    · cases hok
    · exact (Except.ok.inj hok).symm
  subst hresp
  have hclass : ∀ z ∈ sortByScoreDesc (req.candidates.map (evaluateCandidate avail ie mcOf)),
      z.score = 0 ∨ (1 ≤ z.score ∧ z.score ≤ 5) := by
    intro z hz
    have hz2 : z ∈ req.candidates.map (evaluateCandidate avail ie mcOf) :=
      (sortByScoreDesc_perm _).mem_iff.mp hz
    rcases List.mem_map.mp hz2 with ⟨cand, _, hcand⟩
    rcases hres : (evaluate_with_groq avail ie (mcOf cand) cand.answer cand.question_context).1
      with e | ev
    · left
      rw [← hcand]
      simp [evaluateCandidate, hres]
    · right
      rw [← hcand]
      simp only [evaluateCandidate, hres]
      exact ⟨ev.score_ge, ev.score_le⟩
  have hpw := sortByScoreDesc_pairwise (req.candidates.map (evaluateCandidate avail ie mcOf))
  constructor
  · intro x hx
    replace hx : x ∈ addRanksFrom 1
        (sortByScoreDesc (req.candidates.map (evaluateCandidate avail ie mcOf))) := hx
    rcases exists_source_of_mem_addRanksFrom hx with ⟨z, hz, hsc⟩
    rw [hsc]
    exact hclass z hz
  · intro x hx y hy
    replace hx : x ∈ addRanksFrom 1
        (sortByScoreDesc (req.candidates.map (evaluateCandidate avail ie mcOf))) := hx
    replace hy : y ∈ addRanksFrom 1
        (sortByScoreDesc (req.candidates.map (evaluateCandidate avail ie mcOf))) := hy
    exact addRanksFrom_rank_lt hpw 1 x hx y hy

/-- Witness for C10 at a concrete batch with one success and one failure. -/
theorem C10_failures_ranked_below_successes_witness :
    rank_candidates true [] wMc ⟨[wFail, wOk]⟩
      = Except.ok ⟨rank_core ([wFail, wOk].map (evaluateCandidate true [] wMc))⟩
    ∧ ((∀ x ∈ (RankResponse.mk (rank_core ([wFail, wOk].map (evaluateCandidate true [] wMc)))).ranked_candidates,
          x.score = 0 ∨ (1 ≤ x.score ∧ x.score ≤ 5))
      ∧ ∀ x ∈ (RankResponse.mk (rank_core ([wFail, wOk].map (evaluateCandidate true [] wMc)))).ranked_candidates,
          ∀ y ∈ (RankResponse.mk (rank_core ([wFail, wOk].map (evaluateCandidate true [] wMc)))).ranked_candidates,
          1 ≤ x.score → y.score = 0 → x.rank < y.rank) :=
  ⟨rfl, C10_failures_ranked_below_successes true [] wMc ⟨[wFail, wOk]⟩
    ⟨rank_core ([wFail, wOk].map (evaluateCandidate true [] wMc))⟩ rfl⟩

/-- Claim C2: for every non-empty input, the ranked output is the rank-tagged
stable descending sort of the evaluated entries: scores are sorted descending,
each score class retains its input order (stability), and the ranks are
exactly 1..N in order; in particular, for evaluated scores [2, 5, 5, 1] (in
input order A, B, C, D) the output ranks B and C first and second (original
relative order), then A, then D. -/
theorem C2_stable_sort_dense_ranks
    (avail : Bool) (ie : List Char)
    (mcOf : CandidateAnswer → Except (List Char) (List Char))
    (req : RankRequest) (hne : req.candidates ≠ []) :
    rank_candidates avail ie mcOf req
      = Except.ok ⟨rank_core (req.candidates.map (evaluateCandidate avail ie mcOf))⟩
    ∧ (sortByScoreDesc (req.candidates.map (evaluateCandidate avail ie mcOf))).Pairwise
        (fun a b => b.score ≤ a.score)
    ∧ (∀ sc : Int,
        (sortByScoreDesc (req.candidates.map (evaluateCandidate avail ie mcOf))).filter
            (fun e => e.score == sc)
          = (req.candidates.map (evaluateCandidate avail ie mcOf)).filter
              (fun e => e.score == sc))
    ∧ (rank_core (req.candidates.map (evaluateCandidate avail ie mcOf))).map
          (fun r => r.rank)
        = List.range' 1 req.candidates.length
    ∧ rank_candidates true [] exMc ⟨exCandidates⟩
        = Except.ok ⟨[⟨"B".toList, "a2".toList, 5, "s".toList, "i".toList, 1⟩,
            ⟨"C".toList, "a3".toList, 5, "s".toList, "i".toList, 2⟩,
            ⟨"A".toList, "a1".toList, 2, "s".toList, "i".toList, 3⟩,
            ⟨"D".toList, "a4".toList, 1, "s".toList, "i".toList, 4⟩]⟩ := by
  have hie : req.candidates.isEmpty = false := by
    cases hl : req.candidates with
    | nil => exact absurd hl hne
    | cons a as => rfl
  refine ⟨by simp [rank_candidates, hie], sortByScoreDesc_pairwise _,
    fun sc => filter_sortByScoreDesc _ sc, ?_, by rfl⟩
  rw [rank_core, map_rank_addRanksFrom, (sortByScoreDesc_perm _).length_eq,
    List.length_map]

/-- Witness for C2 at the concrete four-candidate batch with scores
[2, 5, 5, 1]. -/
theorem C2_stable_sort_dense_ranks_witness :
    exCandidates ≠ []
    ∧ rank_candidates true [] exMc ⟨exCandidates⟩
      = Except.ok ⟨rank_core (exCandidates.map (evaluateCandidate true [] exMc))⟩ :=
  ⟨by decide, (C2_stable_sort_dense_ranks true [] exMc ⟨exCandidates⟩ (by decide)).1⟩

/-- Claim C8: a request whose candidate answer is empty after trimming is
rejected with a 400 client error, and the external model is never invoked
(the instrumented call count is 0), for every provider state and every
possible model behaviour. -/
theorem C8_empty_answer_rejected_before_model_call
    (avail : Bool) (ie : List Char) (mc : Except (List Char) (List Char))
    (req : AnswerRequest) (h : trimChars req.candidate_says = []) :
    evaluate_answer avail ie mc req = (Except.error ⟨400, Detail.emptyAnswer⟩, 0) := by
  simp [evaluate_answer, h]

/-- Witness for C8 at a whitespace-only answer. -/
theorem C8_empty_answer_rejected_before_model_call_witness :
    trimChars (AnswerRequest.mk "  ".toList []).candidate_says = []
    ∧ evaluate_answer true [] (Except.ok (exScoreJson 4)) ⟨"  ".toList, []⟩
      = (Except.error ⟨400, Detail.emptyAnswer⟩, 0) :=
  ⟨by decide,
    C8_empty_answer_rejected_before_model_call true [] (Except.ok (exScoreJson 4))
      ⟨"  ".toList, []⟩ (by decide)⟩

/-- Claim C5 (amended): every `EvaluationResponse` handed back by
`evaluate_with_groq` is produced by a successful extraction from the model's
raw text, with the provider available, and its score lies in [1, 5] (pydantic
`ge`/`le` bounds); the original claim's non-emptiness of `summary` and
`improvement` does not hold (see the counterexample). -/
theorem C5_success_invariants
    (avail : Bool) (ie : List Char) (mc : Except (List Char) (List Char))
    (a qc : List Char) (ev : EvaluationResponse)
    (h : (evaluate_with_groq avail ie mc a qc).1 = Except.ok ev) :
    avail = true ∧ (∃ raw, mc = Except.ok raw ∧ extractEval raw = Except.ok ev)
    ∧ 1 ≤ ev.score ∧ ev.score ≤ 5 := by
  cases avail with
  | false => simp [evaluate_with_groq] at h
  | true =>
    cases mc with
    | error e => simp [evaluate_with_groq] at h
    | ok raw =>
      cases hx : extractEval raw with
      | error exc =>
        rw [evaluate_with_groq] at h
        simp [hx] at h
      | ok ev2 =>
        have hev : ev2 = ev := by
          rw [evaluate_with_groq] at h
          simpa [hx] using h
        subst hev
        exact ⟨rfl, ⟨raw, rfl, hx⟩, ev2.score_ge, ev2.score_le⟩

/-- Witness for C5 at a successful concrete evaluation. -/
theorem C5_success_invariants_witness :
    (evaluate_with_groq true [] (Except.ok (exScoreJson 4)) [] []).1
      = Except.ok ⟨4, "s".toList, "i".toList, by norm_num, by norm_num⟩
    ∧ (true = true
      ∧ (∃ raw, (Except.ok (exScoreJson 4) : Except (List Char) (List Char)) = Except.ok raw
          ∧ extractEval raw
            = Except.ok ⟨4, "s".toList, "i".toList, by norm_num, by norm_num⟩)
      ∧ 1 ≤ (⟨4, "s".toList, "i".toList, by norm_num, by norm_num⟩ : EvaluationResponse).score
      ∧ (⟨4, "s".toList, "i".toList, by norm_num, by norm_num⟩ : EvaluationResponse).score ≤ 5) :=
  ⟨rfl, C5_success_invariants true [] (Except.ok (exScoreJson 4)) [] []
    ⟨4, "s".toList, "i".toList, by norm_num, by norm_num⟩ rfl⟩

/-- Counterexample to C5 as stated: an extraction can succeed with an empty
summary and an empty improvement — the code coerces them with `str()` and
pydantic places no non-emptiness constraint on them. -/
theorem C5_counterexample_empty_summary :
    (evaluate_with_groq true [] (Except.ok
      "\x7b\"score\": 3, \"summary\": \"\", \"improvement\": \"\"\x7d".toList) [] []).1
    = Except.ok ⟨3, [], [], by norm_num, by norm_num⟩ := rfl

/-- Claim C4 (amended): `_strip_markdown` is idempotent on every input whose
image neither starts with a code fence nor with a bare `json` token; the
unconditional claim fails because a single pass removes only one layer of
`json` tag (and can likewise uncover a fence), see the counterexample. -/
theorem C4_strip_markdown_conditional_idem (t : List Char)
    (h1 : startsWithTicks (strip_markdown t) = false)
    (h2 : startsWithJson (strip_markdown t) = false) :
    strip_markdown (strip_markdown t) = strip_markdown t := by
  show stripJsonTag (stripFence (trimChars (strip_markdown t))) = strip_markdown t
  rw [trimChars_strip_markdown]
  unfold stripFence
  rw [if_neg (by simp [h1])]
  unfold stripJsonTag
  rw [if_neg (by simp [h2])]

/-- Witness for C4 on ordinary clean text. -/
theorem C4_strip_markdown_conditional_idem_witness :
    startsWithTicks (strip_markdown "hello".toList) = false
    ∧ startsWithJson (strip_markdown "hello".toList) = false
    ∧ strip_markdown (strip_markdown "hello".toList) = strip_markdown "hello".toList :=
  ⟨by decide, by decide,
    C4_strip_markdown_conditional_idem "hello".toList (by decide) (by decide)⟩

/-- Counterexample to C4 as stated: `_strip_markdown` is not idempotent — on
"jsonjson x" the first pass strips one `json` token leaving "json x", and a
second pass strips again. -/
theorem C4_counterexample :
    strip_markdown (strip_markdown "jsonjson x".toList)
      ≠ strip_markdown "jsonjson x".toList := by decide

/-- `checkFields` on a parsed object: pass when all three keys are present,
otherwise a `ValueError` listing the object. -/
theorem checkFields_jobj (fields : List (List Char × JValue)) :
    checkFields (JValue.jobj fields)
      = if hasAllRequired fields then Except.ok ()
        else Except.error (PyExc.valueErr (PyMsg.missingFields (JValue.jobj fields))) := by
  cases h1 : (jlookup fields keyScore).isSome
    <;> cases h2 : (jlookup fields keySummary).isSome
    <;> cases h3 : (jlookup fields keyImprovement).isSome
    <;> simp [checkFields, pyContains, hasAllRequired, h1, h2, h3, throw, throwThe,
      MonadExceptOf.throw, pure, Except.pure, bind, Except.bind]

/-- Claim C6: whenever the parse stage produces an object missing any of the
three required keys, the extraction fails with the `ValueError` carrying
"Missing required fields" and the parsed object, surfaced as the 500
validation detail — never a default-filled `EvaluationResponse`. -/
theorem C6_missing_fields_validation_error
    (ie a qc raw : List Char) (fields : List (List Char × JValue))
    (hparse : parseStage (cleanedOf raw) = Except.ok (JValue.jobj fields))
    (hmiss : hasAllRequired fields = false) :
    (evaluate_with_groq true ie (Except.ok raw) a qc).1
      = Except.error ⟨500, Detail.valueMsg (PyMsg.missingFields (JValue.jobj fields))⟩ := by
  have hx : extractEval raw
      = Except.error (PyExc.valueErr (PyMsg.missingFields (JValue.jobj fields))) := by
    rw [extractEval_eq, hparse]
    simp [Except.bind, checkFields_jobj, hmiss]
  simp [evaluate_with_groq, hx, httpOfExc]

/-- Witness for C6 at a response having only the `score` key. -/
theorem C6_missing_fields_validation_error_witness :
    parseStage (cleanedOf "\x7b\"score\": 3\x7d".toList)
      = Except.ok (JValue.jobj [(keyScore, JValue.jnum 3)])
    ∧ hasAllRequired [(keyScore, JValue.jnum 3)] = false
    ∧ (evaluate_with_groq true [] (Except.ok "\x7b\"score\": 3\x7d".toList) [] []).1
      = Except.error ⟨500,
          Detail.valueMsg (PyMsg.missingFields (JValue.jobj [(keyScore, JValue.jnum 3)]))⟩ :=
  ⟨rfl, rfl,
    C6_missing_fields_validation_error [] [] [] "\x7b\"score\": 3\x7d".toList
      [(keyScore, JValue.jnum 3)] rfl rfl⟩

/-- Claim C7 (amended): for a parsed object with all three keys whose score
value is a string that fails integer coercion, extraction fails with a
`ValueError` — the same failure kind as a missing-field failure.  The original
"any type" claim fails: a non-string, non-numeric score (e.g. `null`) raises a
`TypeError`, which the code surfaces as a generic "Groq API error" provider
detail instead (see the counterexample). -/
theorem C7_string_coercion_validation_error
    (ie a qc raw : List Char) (fields : List (List Char × JValue)) (s : List Char)
    (hparse : parseStage (cleanedOf raw) = Except.ok (JValue.jobj fields))
    (hall : hasAllRequired fields = true)
    (hsv : jlookup fields keyScore = some (JValue.jstr s))
    (hnum : pyIntStr s = none) :
    (evaluate_with_groq true ie (Except.ok raw) a qc).1
      = Except.error ⟨500, Detail.valueMsg (PyMsg.intCoerceFailed s)⟩ := by
  have hx : extractEval raw = Except.error (PyExc.valueErr (PyMsg.intCoerceFailed s)) := by
    rw [extractEval_eq, hparse]
    simp [Except.bind, checkFields_jobj, hall, pySubscript, hsv, pyInt, hnum]
  simp [evaluate_with_groq, hx, httpOfExc]

/-- Witness for C7 at a response whose score is the string "abc". -/
theorem C7_string_coercion_validation_error_witness :
    parseStage (cleanedOf
        "\x7b\"score\": \"abc\", \"summary\": \"a\", \"improvement\": \"b\"\x7d".toList)
      = Except.ok (JValue.jobj [(keyScore, JValue.jstr "abc".toList),
          (keySummary, JValue.jstr "a".toList), (keyImprovement, JValue.jstr "b".toList)])
    ∧ hasAllRequired [(keyScore, JValue.jstr "abc".toList),
        (keySummary, JValue.jstr "a".toList), (keyImprovement, JValue.jstr "b".toList)] = true
    ∧ jlookup [(keyScore, JValue.jstr "abc".toList), (keySummary, JValue.jstr "a".toList),
        (keyImprovement, JValue.jstr "b".toList)] keyScore = some (JValue.jstr "abc".toList)
    ∧ pyIntStr "abc".toList = none
    ∧ (evaluate_with_groq true []
        (Except.ok "\x7b\"score\": \"abc\", \"summary\": \"a\", \"improvement\": \"b\"\x7d".toList)
        [] []).1
      = Except.error ⟨500, Detail.valueMsg (PyMsg.intCoerceFailed "abc".toList)⟩ :=
  ⟨rfl, rfl, rfl, rfl,
    C7_string_coercion_validation_error [] [] []
      "\x7b\"score\": \"abc\", \"summary\": \"a\", \"improvement\": \"b\"\x7d".toList
      [(keyScore, JValue.jstr "abc".toList), (keySummary, JValue.jstr "a".toList),
        (keyImprovement, JValue.jstr "b".toList)] "abc".toList rfl rfl rfl rfl⟩

/-- Counterexample to C7 as stated: a `null` score (all three keys present)
fails coercion with a `TypeError`, which surfaces as the generic
"Groq API error" provider detail, not as a `ValueError` validation detail. -/
theorem C7_counterexample_null_score :
    (evaluate_with_groq true [] (Except.ok
      "\x7b\"score\": null, \"summary\": \"a\", \"improvement\": \"b\"\x7d".toList) [] []).1
    = Except.error ⟨500,
        Detail.groqApi "int() argument must be a string, a bytes-like object or a real number".toList⟩ :=
  rfl

/-- Claim C3 (amended): for every score 1-5 and all summary/improvement
strings, if the raw model response is the well-formed rendered JSON object —
bare or preceded by a bare `json` token — the extractor recovers exactly that
evaluation; the same holds for the markdown-fenced wrappings (with or without
a `json` language tag) provided the rendered object itself contains no
three-backtick fence marker (without that proviso the fenced case fails, see
the counterexample); in particular the documented `"4"`-as-string example
parses to score 4, summary "Good", improvement "Add examples". -/
theorem C3_extraction_recovers :
    (∀ (k : Int) (s i : List Char) (hk1 : 1 ≤ k) (hk2 : k ≤ 5) (ie a qc : List Char),
      (evaluate_with_groq true ie (Except.ok (renderEval k s i)) a qc).1
          = Except.ok ⟨k, s, i, hk1, hk2⟩
      ∧ (evaluate_with_groq true ie (Except.ok (jsonTagged (renderEval k s i))) a qc).1
          = Except.ok ⟨k, s, i, hk1, hk2⟩)
    ∧ (∀ (k : Int) (s i : List Char) (hk1 : 1 ≤ k) (hk2 : k ≤ 5),
        containsTicksB (renderEval k s i) = false → ∀ ie a qc : List Char,
      (evaluate_with_groq true ie (Except.ok (fencedJson (renderEval k s i))) a qc).1
          = Except.ok ⟨k, s, i, hk1, hk2⟩
      ∧ (evaluate_with_groq true ie (Except.ok (fencedPlain (renderEval k s i))) a qc).1
          = Except.ok ⟨k, s, i, hk1, hk2⟩)
    ∧ (evaluate_with_groq true [] (Except.ok (fencedJson
        "\x7b\"score\": \"4\", \"summary\": \"Good\", \"improvement\": \"Add examples\"\x7d".toList))
        [] []).1
      = Except.ok ⟨4, "Good".toList, "Add examples".toList, by norm_num, by norm_num⟩ := by
  have hrun : ∀ (ie a qc raw : List Char) (ev : EvaluationResponse),
      extractEval raw = Except.ok ev →
      (evaluate_with_groq true ie (Except.ok raw) a qc).1 = Except.ok ev := by
    intro ie a qc raw ev h
    simp [evaluate_with_groq, h]
  refine ⟨?_, ?_, by rfl⟩
  · intro k s i hk1 hk2 ie a qc
    rcases renderEval_shape k s i with ⟨M, hM⟩
    constructor
    · refine hrun ie a qc _ _ (extractEval_renderEval k hk1 hk2 s i _ ?_)
      rw [cleanedOf_eq_strip, strip_markdown_renderEval]
    · refine hrun ie a qc _ _ (extractEval_renderEval k hk1 hk2 s i _ ?_)
      rw [cleanedOf_eq_strip, strip_markdown_jsonTagged]
      · exact ⟨lbrace :: M, by rw [hM]; rfl⟩
      · exact ⟨M ++ [rbrace], hM⟩
  · intro k s i hk1 hk2 hticks ie a qc
    rcases renderEval_shape k s i with ⟨M, hM⟩
    have h2 : ∃ u, renderEval k s i = u ++ [rbrace] := ⟨lbrace :: M, by rw [hM]; rfl⟩
    have h3 : ∃ r, renderEval k s i = lbrace :: r := ⟨M ++ [rbrace], hM⟩
    constructor
    · refine hrun ie a qc _ _ (extractEval_renderEval k hk1 hk2 s i _ ?_)
      rw [cleanedOf_eq_strip,
        strip_markdown_fencedJson _ hticks h2 h3 (trimChars_renderEval k s i)]
    · refine hrun ie a qc _ _ (extractEval_renderEval k hk1 hk2 s i _ ?_)
      rw [cleanedOf_eq_strip,
        strip_markdown_fencedPlain _ hticks h2 h3 (trimChars_renderEval k s i)]

/-- Witness for C3 at a concrete fenced rendered object. -/
theorem C3_extraction_recovers_witness :
    1 ≤ (3 : Int) ∧ (3 : Int) ≤ 5
    ∧ containsTicksB (renderEval 3 "good".toList "more detail".toList) = false
    ∧ (evaluate_with_groq true [] (Except.ok
          (fencedJson (renderEval 3 "good".toList "more detail".toList))) [] []).1
      = Except.ok ⟨3, "good".toList, "more detail".toList, by norm_num, by norm_num⟩ :=
  ⟨by norm_num, by norm_num, by decide,
    (C3_extraction_recovers.2.1 3 "good".toList "more detail".toList (by norm_num)
      (by norm_num) (by decide) [] [] []).1⟩

/-- Counterexample to C3 as stated: the object rendered with the summary
"``` hi" is well-formed JSON, but wrapped in fences the lazy regex group stops
at the embedded fence marker, the truncated text has no closing brace, and
extraction fails with a parse-recovery `ValueError` instead of succeeding. -/
theorem C3_counterexample_fence_marker_in_summary :
    (evaluate_with_groq true [] (Except.ok
        (fencedJson (renderEval 4 "``` hi".toList "x".toList))) [] []).1
      = Except.error ⟨500,
          Detail.valueMsg (PyMsg.couldNotParse "\x7b\"score\":4,\"summary\":\"".toList)⟩ :=
  rfl

